import Mathlib

/-!
Verification development for the gml-view conversion pipeline.

The repository converts CityGML documents into a Wavefront OBJ text mesh, a
GLB binary scene container, and a JSON metadata index.  The definitions below
are a shallow embedding of the relevant source functions:

* `triangulate_polygon`    — `GeometryProcessor.triangulate_polygon` (src/geometry.py)
* `triangulate_polygon_glb`— `triangulate_polygon` (gml2glb.py, point-based, no de-dup)
* `center_coordinates`     — `GeometryProcessor.center_coordinates` (src/geometry.py)
* `write_glb`              — `write_glb` (gml2glb.py)
* parser coordinate extraction — `CityGMLParser._extract_polygon_coordinates`
  (src/parser.py) and the inline ring extraction of `parse_citygml` (gml2glb.py)
* OBJ serialization        — `OBJWriter.write_single_obj` / `_write_group`
  (src/obj_writer.py), modelled as a list of emitted records
* metadata writers         — `OBJWriter._write_metadata`, `write_metadata`
  (gml2glb.py) and `write_metadata` (simple_gml2obj.py)

Coordinates are modelled as exact rationals (ℚ) in place of IEEE floats; the
properties verified here are structural (ordering, counting, exact arithmetic
identities) and do not depend on rounding.  Vertex values are kept polymorphic
(`α` with decidable equality) wherever the source only ever compares them,
mirroring the duck-typed tuples of the Python code.
-/

namespace GmlView

/-- 3D point with exact rational coordinates (stand-in for the float triples). -/
abbrev Q3 : Type := ℚ × ℚ × ℚ

/-- Componentwise subtraction of two points, as in
`(x - center[0], y - center[1], z - center[2])` in `center_coordinates`. -/
def vsub (a b : Q3) : Q3 := (a.1 - b.1, a.2.1 - b.2.1, a.2.2 - b.2.2)

/-- Closed-ring de-duplication of `GeometryProcessor.triangulate_polygon`:
`if n > 1 and vertices[0] == vertices[-1]: vertices = vertices[:-1]`. -/
def dedupClosed {α : Type} [DecidableEq α] (l : List α) : List α :=
  if 1 < l.length ∧ l.head? = l.getLast? then l.dropLast else l

/-- `GeometryProcessor.triangulate_polygon` (src/geometry.py, lines 78-103):
drop a trailing vertex equal to the first, return `[]` for fewer than 3
remaining vertices, else the fan triangles `(0, i, i+1)` for `i` in
`range(1, n-1)`. -/
def triangulate_polygon {α : Type} [DecidableEq α] (vertices : List α) :
    List (Nat × Nat × Nat) :=
  let vs := dedupClosed vertices
  if vs.length < 3 then []
  else (List.range' 1 (vs.length - 2)).map (fun i => (0, i, i + 1))

/-- `triangulate_polygon` of gml2glb.py (lines 152-161): fan triangulation on
the raw point list, returning triangles of points; it performs no closed-ring
de-duplication. -/
def triangulate_polygon_glb {α : Type} (points : List α) : List (α × α × α) :=
  if points.length < 3 then []
  else
    match points with
    | [] => []
    | p0 :: rest => (rest.zip rest.tail).map (fun q => (p0, q.1, q.2))

/-- Number of distinct vertices of a loop (the wording used by the spec:
"fewer than 3 distinct vertices"). -/
def distinctCount {α : Type} [DecidableEq α] (l : List α) : Nat :=
  l.dedup.length

/-- One geometry record of the parser's output map: the dict with keys
`element_type`, `polygons`, `metadata`. -/
structure GeoData (α : Type) where
  element_type : String
  polygons : List (List α)
  metadata : List (String × String)
deriving DecidableEq

/-- The geometry map from gml_id to record, as an insertion-ordered
association list (Python dicts preserve insertion order). -/
abbrev GeometryMap (α : Type) : Type := List (String × GeoData α)

/-- The `all_vertices` accumulation of `center_coordinates`: every vertex of
every polygon of every record, in record/polygon/vertex order. -/
def allVertices {α : Type} (m : GeometryMap α) : List α :=
  (m.map (fun p => p.2.polygons.flatten)).flatten

/-- Componentwise minimum of a list of rationals (numpy `min(axis=0)`,
per axis); `0` on the empty list, which the caller never hits. -/
def foldMin (l : List ℚ) : ℚ :=
  match l with
  | [] => 0
  | x :: xs => xs.foldl min x

/-- Componentwise maximum of a list of rationals (numpy `max(axis=0)`,
per axis); `0` on the empty list, which the caller never hits. -/
def foldMax (l : List ℚ) : ℚ :=
  match l with
  | [] => 0
  | x :: xs => xs.foldl max x

/-- Midpoint of the axis-aligned bounding box: `(min_corner + max_corner) / 2`
computed per axis, as in `center_coordinates`. -/
def bboxMid (vs : List Q3) : Q3 :=
  ((foldMin (vs.map (fun v => v.1)) + foldMax (vs.map (fun v => v.1))) / 2,
   (foldMin (vs.map (fun v => v.2.1)) + foldMax (vs.map (fun v => v.2.1))) / 2,
   (foldMin (vs.map (fun v => v.2.2)) + foldMax (vs.map (fun v => v.2.2))) / 2)

/-- The re-centering loop of `center_coordinates`: rebuild every record with
each vertex shifted by `-c`, keeping key, element type and metadata. -/
def recenterMap (m : GeometryMap Q3) (c : Q3) : GeometryMap Q3 :=
  m.map (fun p =>
    (p.1, { element_type := p.2.element_type,
            polygons := p.2.polygons.map (fun poly => poly.map (fun v => vsub v c)),
            metadata := p.2.metadata }))

/-- `GeometryProcessor.center_coordinates` (src/geometry.py, lines 20-76):
collect all vertices; with none, warn and return the map unchanged with
offset `(0, 0, 0)`; otherwise subtract the bounding-box midpoint from every
vertex and return the offset. -/
def center_coordinates (m : GeometryMap Q3) : GeometryMap Q3 × Q3 :=
  let vs := allVertices m
  if vs = [] then (m, ((0 : ℚ), (0 : ℚ), (0 : ℚ)))
  else (recenterMap m (bboxMid vs), bboxMid vs)

end GmlView

namespace GmlView

theorem range'_one_map_mem {n m : Nat} (h : m ∈ List.range' 1 n) : 1 ≤ m ∧ m < n + 1 := by
  have := List.mem_range'_1.mp h
  omega

/-- C1 (amended): `GeometryProcessor.triangulate_polygon` drops a trailing
vertex equal to the first, yields `[]` when fewer than 3 vertices (counted
with multiplicity, not distinct vertices) remain, and otherwise yields
exactly the `n-2` fan triangles `(0, i, i+1)` for `i` in `[1, n-2]`, whose
indices all lie in `[0, n-1]` and jointly cover every index; the standalone
converter's `triangulate_polygon` (gml2glb.py) performs no de-duplication and
fans the raw point list into `m-2` triangles for `m ≥ 3` raw points. -/
theorem triangulate_polygon_spec_amended {α : Type} [DecidableEq α] (l : List α) :
    ((dedupClosed l).length < 3 → triangulate_polygon l = []) ∧
    (3 ≤ (dedupClosed l).length →
      triangulate_polygon l =
        (List.range' 1 ((dedupClosed l).length - 2)).map (fun i => (0, i, i + 1)) ∧
      (triangulate_polygon l).length = (dedupClosed l).length - 2 ∧
      (∀ t ∈ triangulate_polygon l,
        t.1 < (dedupClosed l).length ∧ t.2.1 < (dedupClosed l).length ∧
          t.2.2 < (dedupClosed l).length) ∧
      (∀ j, j < (dedupClosed l).length →
        ∃ t ∈ triangulate_polygon l, t.1 = j ∨ t.2.1 = j ∨ t.2.2 = j)) ∧
    (∀ (points : List α), (triangulate_polygon_glb points).length =
        if points.length < 3 then 0 else points.length - 2) := by
  refine ⟨?_, ?_, ?_⟩
  · intro h
    simp only [triangulate_polygon, if_pos h]
  · intro h
    have hlt : ¬ (dedupClosed l).length < 3 := by omega
    refine ⟨?_, ?_, ?_, ?_⟩
    · simp only [triangulate_polygon, if_neg hlt]
    · simp only [triangulate_polygon, if_neg hlt, List.length_map, List.length_range']
    · intro t ht
      simp only [triangulate_polygon, if_neg hlt, List.mem_map] at ht
      obtain ⟨i, hi, rfl⟩ := ht
      have := range'_one_map_mem hi
      simp only
      omega
    · intro j hj
      rcases Nat.eq_or_lt_of_le (Nat.zero_le j) with h0 | hpos
      · refine ⟨(0, 1, 2), ?_, Or.inl h0⟩
        simp only [triangulate_polygon, if_neg hlt, List.mem_map]
        exact ⟨1, List.mem_range'_1.mpr (by omega), rfl⟩
      · rcases Nat.lt_or_ge j 2 with h1 | h2
        · have hj1 : j = 1 := by omega
          refine ⟨(0, 1, 2), ?_, Or.inr (Or.inl hj1.symm)⟩
          simp only [triangulate_polygon, if_neg hlt, List.mem_map]
          exact ⟨1, List.mem_range'_1.mpr (by omega), rfl⟩
        · refine ⟨(0, j - 1, j), ?_, Or.inr (Or.inr ?_)⟩
          · simp only [triangulate_polygon, if_neg hlt, List.mem_map]
            refine ⟨j - 1, List.mem_range'_1.mpr (by omega), ?_⟩
            have hj1 : j - 1 + 1 = j := by omega
            simp only [hj1]
          · rfl
  · intro points
    cases points with
    | nil => rfl
    | cons p0 rest =>
      simp only [triangulate_polygon_glb, List.length_map, List.length_zip,
        List.length_tail, List.length_cons, apply_ite List.length, List.length_nil]
      split_ifs with h
      · rfl
      · omega

/-- Witness for C1's amended theorem: the closed square ring `[0,1,2,3,0]`
de-duplicates to 4 vertices and fans into the two triangles
`(0,1,2)` and `(0,2,3)`. -/
theorem triangulate_polygon_spec_witness :
    triangulate_polygon [0, 1, 2, 3, 0] = [(0, 1, 2), (0, 2, 3)] ∧
    (triangulate_polygon_glb [(0 : Nat), 1]).length = 0 := by
  have h := triangulate_polygon_spec_amended (α := Nat) [0, 1, 2, 3, 0]
  constructor
  · have h2 := (h.2.1 (by decide)).1
    rw [h2]
    decide
  · have h3 := h.2.2 [0, 1]
    rw [h3]
    decide

/-- C1 counterexample: the claim as stated is false on the code in two ways.
For the loop `[0,0,0,0]` (four equal vertices) the trailing duplicate is
dropped leaving only 1 distinct vertex, yet `GeometryProcessor.
triangulate_polygon` returns a non-empty triangle list (the length test is on
raw, not distinct, vertices).  And for the closed ring `[0,1,2,0]` the
standalone converter's triangulation drops no trailing duplicate: it produces
2 triangles where the claimed de-duplicating fan would produce 1. -/
theorem triangulate_polygon_distinct_cex :
    (distinctCount (dedupClosed [0, 0, 0, 0]) < 3 ∧
      triangulate_polygon [0, 0, 0, 0] ≠ ([] : List (Nat × Nat × Nat))) ∧
    (triangulate_polygon_glb [(0 : Nat), 1, 2, 0]).length = 2 ∧
    (triangulate_polygon [(0 : Nat), 1, 2, 0]).length = 1 := by
  decide

end GmlView

namespace GmlView

theorem forall2_map_right {α β : Type} {R : α → β → Prop} {f : α → β} :
    ∀ (l : List α), (∀ a ∈ l, R a (f a)) → List.Forall₂ R l (l.map f)
  | [], _ => List.Forall₂.nil
  | x :: xs, h =>
      List.Forall₂.cons (h x (List.mem_cons_self x xs))
        (forall2_map_right xs (fun a ha => h a (List.mem_cons_of_mem x ha)))

theorem vsub_zero (v : Q3) : vsub v ((0 : ℚ), (0 : ℚ), (0 : ℚ)) = v := by
  simp [vsub]

/-- C2: `center_coordinates` returns the componentwise midpoint of the
bounding box of all vertices as offset (`(0,0,0)` with the map unchanged when
there are no vertices), and the output map has the same keys in the same
order, with element type and metadata intact and every vertex shifted by
exactly the offset, preserving polygon and vertex order. -/
theorem center_coordinates_spec (m : GeometryMap Q3) :
    ((center_coordinates m).2 =
      if allVertices m = [] then ((0 : ℚ), (0 : ℚ), (0 : ℚ))
      else bboxMid (allVertices m)) ∧
    (allVertices m = [] → (center_coordinates m).1 = m) ∧
    ((center_coordinates m).1.map Prod.fst = m.map Prod.fst) ∧
    List.Forall₂ (fun (p q : String × GeoData Q3) =>
      q.1 = p.1 ∧ q.2.element_type = p.2.element_type ∧
      q.2.metadata = p.2.metadata ∧
      List.Forall₂ (List.Forall₂ (fun v w => w = vsub v (center_coordinates m).2))
        p.2.polygons q.2.polygons) m (center_coordinates m).1 := by
  by_cases h : allVertices m = []
  · refine ⟨by simp [center_coordinates, h], fun _ => by simp [center_coordinates, h],
      by simp [center_coordinates, h], ?_⟩
    have h2 : (center_coordinates m).2 = ((0 : ℚ), (0 : ℚ), (0 : ℚ)) := by
      simp [center_coordinates, h]
    have h1 : (center_coordinates m).1 = m := by simp [center_coordinates, h]
    rw [h1, h2]
    rw [List.forall₂_same]
    intro p _
    refine ⟨rfl, rfl, rfl, ?_⟩
    rw [List.forall₂_same]
    intro poly _
    rw [List.forall₂_same]
    intro v _
    rw [vsub_zero]
  · have h1 : (center_coordinates m).1 = recenterMap m (bboxMid (allVertices m)) := by
      simp [center_coordinates, h]
    have h2 : (center_coordinates m).2 = bboxMid (allVertices m) := by
      simp [center_coordinates, h]
    refine ⟨by rw [h2, if_neg h], fun hc => absurd hc h, ?_, ?_⟩
    · rw [h1]
      simp [recenterMap, List.map_map]
    · rw [h1, h2]
      apply forall2_map_right
      intro p _
      refine ⟨rfl, rfl, rfl, ?_⟩
      apply forall2_map_right
      intro poly _
      apply forall2_map_right
      intro v _
      rfl

/-- Witness for C2 at the empty geometry map: no vertices, offset `(0,0,0)`,
map returned unchanged. -/
theorem center_coordinates_spec_witness :
    (center_coordinates ([] : GeometryMap Q3)).1 = [] ∧
    (center_coordinates ([] : GeometryMap Q3)).2 = ((0 : ℚ), (0 : ℚ), (0 : ℚ)) := by
  have h := center_coordinates_spec ([] : GeometryMap Q3)
  exact ⟨h.2.1 rfl, (h.1).trans (if_pos rfl)⟩

theorem foldl_min_map_sub (a : ℚ) :
    ∀ (xs : List ℚ) (x : ℚ), (xs.map (fun t => t - a)).foldl min (x - a) = xs.foldl min x - a
  | [], _ => rfl
  | y :: ys, x => by
      simp only [List.map_cons, List.foldl_cons, min_sub_sub_right]
      exact foldl_min_map_sub a ys (min x y)

theorem foldl_max_map_sub (a : ℚ) :
    ∀ (xs : List ℚ) (x : ℚ), (xs.map (fun t => t - a)).foldl max (x - a) = xs.foldl max x - a
  | [], _ => rfl
  | y :: ys, x => by
      simp only [List.map_cons, List.foldl_cons, max_sub_sub_right]
      exact foldl_max_map_sub a ys (max x y)

theorem foldMin_map_sub (l : List ℚ) (a : ℚ) (h : l ≠ []) :
    foldMin (l.map (fun t => t - a)) = foldMin l - a := by
  cases l with
  | nil => exact absurd rfl h
  | cons x xs => exact foldl_min_map_sub a xs x

theorem foldMax_map_sub (l : List ℚ) (a : ℚ) (h : l ≠ []) :
    foldMax (l.map (fun t => t - a)) = foldMax l - a := by
  cases l with
  | nil => exact absurd rfl h
  | cons x xs => exact foldl_max_map_sub a xs x

theorem flatten_map_eq {α β : Type} (g : α → β) :
    ∀ (L : List (List α)), (L.map (fun l => l.map g)).flatten = L.flatten.map g
  | [] => rfl
  | x :: xs => by
      simp only [List.map_cons, List.flatten_cons, List.map_append, flatten_map_eq g xs]

theorem allVertices_recenterMap : ∀ (m : GeometryMap Q3) (c : Q3),
    allVertices (recenterMap m c) = (allVertices m).map (fun v => vsub v c)
  | [], _ => rfl
  | p :: ps, c => by
      have ih := allVertices_recenterMap ps c
      simp only [allVertices, recenterMap, List.map_cons, List.flatten_cons,
        List.map_append] at ih ⊢
      rw [ih, flatten_map_eq]

theorem bboxMid_map_sub (vs : List Q3) (c : Q3) (h : vs ≠ []) :
    bboxMid (vs.map (fun v => vsub v c)) = vsub (bboxMid vs) c := by
  have hne : ∀ (f : Q3 → ℚ), vs.map f ≠ [] := by
    intro f hf
    exact h (List.map_eq_nil_iff.mp hf)
  simp only [bboxMid, vsub, List.map_map]
  have e1 : (fun v : Q3 => (vsub v c).1) ∘ id = fun v : Q3 => v.1 - c.1 := rfl
  refine Prod.ext ?_ (Prod.ext ?_ ?_)
  · show (foldMin (vs.map fun v => v.1 - c.1) + foldMax (vs.map fun v => v.1 - c.1)) / 2 = _
    have : vs.map (fun v : Q3 => v.1 - c.1) = (vs.map (fun v : Q3 => v.1)).map (fun t => t - c.1) := by
      rw [List.map_map]; rfl
    rw [this, foldMin_map_sub _ _ (hne _), foldMax_map_sub _ _ (hne _)]
    ring
  · show (foldMin (vs.map fun v => v.2.1 - c.2.1) + foldMax (vs.map fun v => v.2.1 - c.2.1)) / 2 = _
    have : vs.map (fun v : Q3 => v.2.1 - c.2.1) =
        (vs.map (fun v : Q3 => v.2.1)).map (fun t => t - c.2.1) := by
      rw [List.map_map]; rfl
    rw [this, foldMin_map_sub _ _ (hne _), foldMax_map_sub _ _ (hne _)]
    ring
  · show (foldMin (vs.map fun v => v.2.2 - c.2.2) + foldMax (vs.map fun v => v.2.2 - c.2.2)) / 2 = _
    have : vs.map (fun v : Q3 => v.2.2 - c.2.2) =
        (vs.map (fun v : Q3 => v.2.2)).map (fun t => t - c.2.2) := by
      rw [List.map_map]; rfl
    rw [this, foldMin_map_sub _ _ (hne _), foldMax_map_sub _ _ (hne _)]
    ring

theorem recenterMap_zero (m : GeometryMap Q3) :
    recenterMap m ((0 : ℚ), (0 : ℚ), (0 : ℚ)) = m := by
  unfold recenterMap
  conv_rhs => rw [← List.map_id m]
  apply List.map_congr_left
  intro p _
  have hz : (fun v : Q3 => vsub v ((0 : ℚ), (0 : ℚ), (0 : ℚ))) = id := funext vsub_zero
  rw [hz]
  simp only [List.map_id, List.map_id']
  rfl

/-- C9: centering is idempotent — applying `center_coordinates` to its own
centered output yields offset `(0, 0, 0)` and returns the centered map
unchanged. -/
theorem center_coordinates_idempotent (m : GeometryMap Q3) :
    center_coordinates (center_coordinates m).1 =
      ((center_coordinates m).1, ((0 : ℚ), (0 : ℚ), (0 : ℚ))) := by
  by_cases h : allVertices m = []
  · have h1 : (center_coordinates m).1 = m := by simp [center_coordinates, h]
    rw [h1]
    simp [center_coordinates, h]
  · have h1 : (center_coordinates m).1 = recenterMap m (bboxMid (allVertices m)) := by
      simp [center_coordinates, h]
    set c := bboxMid (allVertices m) with hc
    have hv : allVertices (recenterMap m c) = (allVertices m).map (fun v => vsub v c) :=
      allVertices_recenterMap m c
    have hv_ne : allVertices (recenterMap m c) ≠ [] := by
      rw [hv]
      intro hcon
      exact h (List.map_eq_nil_iff.mp hcon)
    have hmid : bboxMid (allVertices (recenterMap m c)) = ((0 : ℚ), (0 : ℚ), (0 : ℚ)) := by
      rw [hv, bboxMid_map_sub _ _ h, ← hc]
      simp [vsub]
    rw [h1]
    simp only [center_coordinates, if_neg hv_ne, hmid, recenterMap_zero]

end GmlView

namespace GmlView

/-- Number of padding bytes needed to reach a 4-byte boundary:
`(4 - (n % 4)) % 4`, as computed twice in `write_glb`. -/
def pad4 (n : Nat) : Nat := (4 - n % 4) % 4

/-- Little-endian 4-byte encoding of a 32-bit value, the byte sequence
produced by Python `struct.pack` with an unsigned little-endian format. -/
def u32le (n : Nat) : List Nat :=
  [n % 256, n / 256 % 256, n / 65536 % 256, n / 16777216 % 256]

/-- Little-endian decoding of the first four bytes of a list. -/
def decodeU32le (l : List Nat) : Nat :=
  l.getD 0 0 + 256 * l.getD 1 0 + 65536 * l.getD 2 0 + 16777216 * l.getD 3 0

/-- `write_glb` (gml2glb.py, lines 304-334), modelled as the byte sequence
written to the file: pad the JSON bytes with spaces (byte 32) and the binary
buffer with zeros to 4-byte boundaries, then write the 12-byte header
(magic `glTF`, version 2, total length), the length-prefixed JSON chunk
tagged `JSON`, and the length-prefixed binary chunk tagged `BIN`.
Returns `none` when a packed length does not fit in 32 bits, where
`struct.pack` would raise and no file would be produced. -/
def write_glb (jsonBytes binBuf : List Nat) : Option (List Nat) :=
  let jp := jsonBytes ++ List.replicate (pad4 jsonBytes.length) 32
  let bp := binBuf ++ List.replicate (pad4 binBuf.length) 0
  let total := 12 + 8 + jp.length + 8 + bp.length
  if total < 4294967296 ∧ jp.length < 4294967296 ∧ bp.length < 4294967296 then
    some (u32le 1179937895 ++ (u32le 2 ++ (u32le total ++
          (u32le jp.length ++ (u32le 1313821514 ++ (jp ++
          (u32le bp.length ++ (u32le 5130562 ++ bp))))))))
  else none

theorem decode_u32le (n : Nat) (h : n < 4294967296) : decodeU32le (u32le n) = n := by
  simp only [u32le, decodeU32le, List.getD]
  simp only [List.get?_eq_getElem?, List.getElem?_cons_zero, List.getElem?_cons_succ,
    Option.getD_some]
  omega

theorem u32le_length (n : Nat) : (u32le n).length = 4 := rfl

theorem drop_append_exact {α : Type} (l₁ l₂ : List α) (n : Nat) (h : l₁.length = n) :
    (l₁ ++ l₂).drop n = l₂ := by
  subst h
  simp

theorem take_append_exact {α : Type} (l₁ l₂ : List α) (n : Nat) (h : l₁.length = n) :
    (l₁ ++ l₂).take n = l₁ := by
  subst h
  rw [List.take_append_of_le_length (Nat.le_refl _), List.take_length]

/-- C3: for every generated GLB container, the header's declared total length
equals `12 + 8 + paddedJson + 8 + paddedBin` and equals the exact number of
bytes written; each chunk's length prefix equals its padded length; the two
chunk-type markers are the fixed JSON and BIN constants; and the chunk bodies
are the inputs padded with trailing space bytes (JSON) and zero bytes (BIN)
to 4-byte boundaries. -/
theorem write_glb_length_spec (jsonBytes binBuf out : List Nat)
    (h : write_glb jsonBytes binBuf = some out) :
    out.length = 12 + 8 + (jsonBytes.length + pad4 jsonBytes.length)
      + 8 + (binBuf.length + pad4 binBuf.length) ∧
    decodeU32le ((out.drop 8).take 4) = out.length ∧
    decodeU32le ((out.drop 12).take 4) = jsonBytes.length + pad4 jsonBytes.length ∧
    (out.drop 16).take 4 = u32le 1313821514 ∧
    (out.drop 20).take (jsonBytes.length + pad4 jsonBytes.length)
      = jsonBytes ++ List.replicate (pad4 jsonBytes.length) 32 ∧
    decodeU32le ((out.drop (20 + (jsonBytes.length + pad4 jsonBytes.length))).take 4)
      = binBuf.length + pad4 binBuf.length ∧
    (out.drop (24 + (jsonBytes.length + pad4 jsonBytes.length))).take 4 = u32le 5130562 ∧
    out.drop (28 + (jsonBytes.length + pad4 jsonBytes.length))
      = binBuf ++ List.replicate (pad4 binBuf.length) 0 := by
  simp only [write_glb] at h
  split_ifs at h with hg
  · have hout := (Option.some.injEq _ _).mp h
    subst hout
    set jp := jsonBytes ++ List.replicate (pad4 jsonBytes.length) 32 with hjp
    set bp := binBuf ++ List.replicate (pad4 binBuf.length) 0 with hbp
    have hjplen : jp.length = jsonBytes.length + pad4 jsonBytes.length := by
      simp [hjp]
    have hbplen : bp.length = binBuf.length + pad4 binBuf.length := by
      simp [hbp]
    set total := 12 + 8 + jp.length + 8 + bp.length with htotal
    set rest3 := u32le jp.length ++ (u32le 1313821514 ++ (jp ++
          (u32le bp.length ++ (u32le 5130562 ++ bp)))) with hrest3
    set out0 := u32le 1179937895 ++ (u32le 2 ++ (u32le total ++ rest3)) with hout0
    have hlen : out0.length = 12 + 8 + jp.length + 8 + bp.length := by
      simp [hout0, hrest3, u32le_length]
      omega
    have hd8 : out0.drop 8 = u32le total ++ rest3 := by
      rw [hout0, show u32le 1179937895 ++ (u32le 2 ++ (u32le total ++ rest3))
          = (u32le 1179937895 ++ u32le 2) ++ (u32le total ++ rest3) by
        simp [List.append_assoc]]
      exact drop_append_exact _ _ 8 (by simp [u32le_length])
    have hd12 : out0.drop 12 = rest3 := by
      rw [hout0, show u32le 1179937895 ++ (u32le 2 ++ (u32le total ++ rest3))
          = (u32le 1179937895 ++ (u32le 2 ++ u32le total)) ++ rest3 by
        simp [List.append_assoc]]
      exact drop_append_exact _ _ 12 (by simp [u32le_length])
    have hd16 : out0.drop 16 = u32le 1313821514 ++ (jp ++
        (u32le bp.length ++ (u32le 5130562 ++ bp))) := by
      rw [hout0, show u32le 1179937895 ++ (u32le 2 ++ (u32le total ++ rest3))
          = (u32le 1179937895 ++ (u32le 2 ++ (u32le total ++ u32le jp.length))) ++
            (u32le 1313821514 ++ (jp ++ (u32le bp.length ++ (u32le 5130562 ++ bp)))) by
        simp [hrest3, List.append_assoc]]
      exact drop_append_exact _ _ 16 (by simp [u32le_length])
    have hd20 : out0.drop 20 = jp ++ (u32le bp.length ++ (u32le 5130562 ++ bp)) := by
      rw [hout0, show u32le 1179937895 ++ (u32le 2 ++ (u32le total ++ rest3))
          = (u32le 1179937895 ++ (u32le 2 ++ (u32le total ++ (u32le jp.length ++
              u32le 1313821514)))) ++ (jp ++ (u32le bp.length ++ (u32le 5130562 ++ bp))) by
        simp [hrest3, List.append_assoc]]
      exact drop_append_exact _ _ 20 (by simp [u32le_length])
    have hd20' : out0.drop (20 + jp.length) = u32le bp.length ++ (u32le 5130562 ++ bp) := by
      rw [hout0, show u32le 1179937895 ++ (u32le 2 ++ (u32le total ++ rest3))
          = (u32le 1179937895 ++ (u32le 2 ++ (u32le total ++ (u32le jp.length ++
              (u32le 1313821514 ++ jp))))) ++ (u32le bp.length ++ (u32le 5130562 ++ bp)) by
        simp [hrest3, List.append_assoc]]
      exact drop_append_exact _ _ (20 + jp.length) (by simp [u32le_length]; omega)
    have hd24 : out0.drop (24 + jp.length) = u32le 5130562 ++ bp := by
      rw [hout0, show u32le 1179937895 ++ (u32le 2 ++ (u32le total ++ rest3))
          = (u32le 1179937895 ++ (u32le 2 ++ (u32le total ++ (u32le jp.length ++
              (u32le 1313821514 ++ (jp ++ u32le bp.length)))))) ++ (u32le 5130562 ++ bp) by
        simp [hrest3, List.append_assoc]]
      exact drop_append_exact _ _ (24 + jp.length) (by simp [u32le_length]; omega)
    have hd28 : out0.drop (28 + jp.length) = bp := by
      rw [hout0, show u32le 1179937895 ++ (u32le 2 ++ (u32le total ++ rest3))
          = (u32le 1179937895 ++ (u32le 2 ++ (u32le total ++ (u32le jp.length ++
              (u32le 1313821514 ++ (jp ++ (u32le bp.length ++ u32le 5130562))))))) ++ bp by
        simp [hrest3, List.append_assoc]]
      exact drop_append_exact _ _ (28 + jp.length) (by simp [u32le_length]; omega)
    refine ⟨by rw [hlen]; omega, ?_, ?_, ?_, ?_, ?_, ?_, ?_⟩
    · rw [hd8, take_append_exact _ _ 4 (u32le_length _), decode_u32le _ hg.1, hlen]
    · rw [hd12, hrest3, take_append_exact _ _ 4 (u32le_length _),
        decode_u32le _ hg.2.1, hjplen]
    · rw [hd16, take_append_exact _ _ 4 (u32le_length _)]
    · rw [hd20, ← hjplen, take_append_exact _ _ jp.length rfl]
    · rw [← hjplen, hd20', take_append_exact _ _ 4 (u32le_length _),
        decode_u32le _ hg.2.2, hbplen]
    · rw [← hjplen, hd24, take_append_exact _ _ 4 (u32le_length _)]
    · rw [← hjplen, hd28, hbp]

/-- Witness for C3 on a 2-byte JSON document and a 3-byte binary payload:
both pad to 4 bytes, the file is 36 bytes long and its header declares 36. -/
theorem write_glb_length_witness :
    write_glb [123, 125] [1, 2, 3] = some ((write_glb [123, 125] [1, 2, 3]).getD []) ∧
    ((write_glb [123, 125] [1, 2, 3]).getD []).length = 36 ∧
    decodeU32le ((((write_glb [123, 125] [1, 2, 3]).getD []).drop 8).take 4) = 36 := by
  have h : write_glb [123, 125] [1, 2, 3] = some ((write_glb [123, 125] [1, 2, 3]).getD []) := by
    decide
  have hs := write_glb_length_spec [123, 125] [1, 2, 3] _ h
  exact ⟨h, hs.1.trans (by decide), hs.2.1.trans (hs.1.trans (by decide))⟩

end GmlView

namespace GmlView

/-- Per-pos-node extraction of `CityGMLParser._extract_polygon_coordinates`
(src/parser.py, lines 136-146).  A token is `some x` when Python `float()`
succeeds with value `x` and `none` when it would raise `ValueError`.  Each
pos node's token list is used only when it has at least 3 tokens and the
first three are numeric; otherwise the node is skipped (warning logged),
never fatal. -/
def parsePos {α : Type} (posTexts : List (List (Option α))) : List (α × α × α) :=
  posTexts.filterMap (fun ts =>
    if 3 ≤ ts.length then
      match ts with
      | some x :: some y :: some z :: _ => some (x, y, z)
      | _ => none
    else none)

/-- posList extraction of `CityGMLParser._extract_polygon_coordinates`
(src/parser.py, lines 149-159): walk the token list in steps of 3, keep only
complete triples whose three tokens are numeric, skip the rest. -/
def groupTriples {α : Type} : List (Option α) → List (α × α × α)
  | x :: y :: z :: rest =>
      (match x, y, z with
       | some a, some b, some c => [(a, b, c)]
       | _, _, _ => []) ++ groupTriples rest
  | _ => []

/-- Full ring extraction of `CityGMLParser._extract_polygon_coordinates`:
pos-node triples first, then — additionally — the posList triples when a
posList with text is present (`none` models an absent posList or one with
falsy text). -/
def parserExtractRing {α : Type} (posTexts : List (List (Option α)))
    (posList : Option (List (Option α))) : List (α × α × α) :=
  parsePos posTexts ++
    (match posList with
     | some ts => groupTriples ts
     | none => [])

/-- Grouping of a flat coordinate list into consecutive triples, as the list
comprehension in `parse_citygml` (gml2glb.py) produces when no index error
occurs. -/
def chunk3 {α : Type} : List α → List (α × α × α)
  | x :: y :: z :: rest => (x, y, z) :: chunk3 rest
  | _ => []

/-- `list(map(float, tokens))` as called (unguarded) by `parse_citygml` in
gml2glb.py: `none` when any token is non-numeric, where Python raises
`ValueError`, else the list of values. -/
def floatAll {α : Type} : List (Option α) → Option (List α)
  | [] => some []
  | none :: _ => none
  | some a :: ts => (floatAll ts).map (fun l => a :: l)

/-- `floatAll` applied to each pos node's token list in turn; `none` as soon
as any node holds a non-numeric token. -/
def floatAllRows {α : Type} : List (List (Option α)) → Option (List (List α))
  | [] => some []
  | ts :: rest =>
      match floatAll ts with
      | none => none
      | some cs => (floatAllRows rest).map (fun css => cs :: css)

/-- Ring extraction of `parse_citygml` (gml2glb.py, lines 108-123), with
`none` modelling an unhandled Python exception aborting the parse: prefer the
posList when present (with text); `list(map(float, ...))` raises on any
non-numeric token, and the triple comprehension raises `IndexError` when the
token count is not a multiple of 3.  Only when no posList is present are the
individual pos nodes read, again with unguarded `float()`. -/
def glbRingPoints {α : Type} (posList : Option (List (Option α)))
    (posTexts : List (List (Option α))) : Option (List (α × α × α)) :=
  match posList with
  | some ts =>
      match floatAll ts with
      | none => none
      | some coords =>
          if coords.length % 3 = 0 then some (chunk3 coords) else none
  | none =>
      match floatAllRows posTexts with
      | none => none
      | some css =>
          some (css.filterMap (fun cs =>
            match cs with
            | a :: b :: c :: _ => some (a, b, c)
            | _ => none))

/-- Whether a pos node's token list yields a vertex in the module parser:
at least three tokens with the first three numeric. -/
def goodPos {α : Type} (ts : List (Option α)) : Bool :=
  match ts with
  | some _ :: some _ :: some _ :: _ => true
  | _ => false

theorem floatAll_eq_none {α : Type} :
    ∀ (ts : List (Option α)), floatAll ts = none ↔ none ∈ ts
  | [] => by simp [floatAll]
  | none :: ts => by simp [floatAll]
  | some a :: ts => by
      simp only [floatAll, List.mem_cons, Option.map_eq_none']
      rw [floatAll_eq_none ts]
      simp

theorem floatAll_length {α : Type} :
    ∀ (ts : List (Option α)) (l : List α), floatAll ts = some l → l.length = ts.length
  | [], l, h => by
      simp only [floatAll, Option.some.injEq] at h
      rw [← h]
      rfl
  | none :: ts, l, h => by
      simp [floatAll] at h
  | some a :: ts, l, h => by
      simp only [floatAll] at h
      rcases hm : floatAll ts with _ | l'
      · rw [hm] at h
        simp at h
      · rw [hm] at h
        simp only [Option.map_some', Option.some.injEq] at h
        rw [← h]
        simp [floatAll_length ts l' hm]

theorem floatAll_map_some {α : Type} :
    ∀ (coords : List α), floatAll (coords.map some) = some coords
  | [] => rfl
  | c :: cs => by
      have ih := floatAll_map_some cs
      simp only [List.map_cons, floatAll, ih, Option.map_some']

end GmlView

namespace GmlView

/-- C6 counterexample: the same malformed inputs that the module parser
skips are fatal in the standalone converter.  A posList whose first token is
non-numeric (`none`), and an all-numeric posList of 4 tokens (not a multiple
of 3), both make `parse_citygml` of gml2glb.py raise (modelled `none`),
aborting the whole parse, while `CityGMLParser._extract_polygon_coordinates`
skips them and continues. -/
theorem malformed_coordinates_fatal_cex :
    glbRingPoints (α := Nat) (some [none, some 1, some 2]) [] = none ∧
    glbRingPoints (α := Nat) (some [some 1, some 2, some 3, some 4]) [] = none ∧
    parserExtractRing (α := Nat) [] (some [none, some 1, some 2]) = [] ∧
    parserExtractRing (α := Nat) [] (some [some 1, some 2, some 3, some 4])
      = [(1, 2, 3)] := by
  refine ⟨rfl, rfl, rfl, rfl⟩

/-- C6 (amended): the module parser's extraction skips malformed triples
(non-numeric token, incomplete trailing group, malformed pos node) and always
completes, but the standalone converter's extraction fails exactly when the
packed list holds a non-numeric token or its token count is not a multiple
of 3. -/
theorem malformed_coordinates_amended {α : Type} :
    (∀ (ts : List (Option α)) (pe : List (List (Option α))),
      glbRingPoints (some ts) pe = none ↔ none ∈ ts ∨ ts.length % 3 ≠ 0) ∧
    (∀ (x y z : Option α) (r : List (Option α)),
      (x = none ∨ y = none ∨ z = none) →
        groupTriples (x :: y :: z :: r) = groupTriples r) ∧
    (∀ (ts : List (Option α)) (rest : List (List (Option α)))
        (pl : Option (List (Option α))),
      goodPos ts = false →
        parserExtractRing (ts :: rest) pl = parserExtractRing rest pl) := by
  refine ⟨?_, ?_, ?_⟩
  · intro ts pe
    simp only [glbRingPoints]
    rcases hm : floatAll ts with _ | coords
    · simp only [true_iff]
      exact Or.inl ((floatAll_eq_none ts).mp hm)
    · have hn : none ∉ ts := by
        intro hc
        rw [(floatAll_eq_none ts).mpr hc] at hm
        exact Option.noConfusion hm
      have hl : coords.length = ts.length := floatAll_length ts coords hm
      by_cases h3 : coords.length % 3 = 0
      · simp only [if_pos h3]
        constructor
        · intro hc
          exact Option.noConfusion hc
        · intro hc
          rcases hc with hc | hc
          · exact absurd hc hn
          · rw [hl] at h3
            exact absurd h3 hc
      · simp only [if_neg h3]
        constructor
        · intro _
          refine Or.inr ?_
          rw [← hl]
          exact h3
        · intro _
          trivial
  · intro x y z r h
    rcases h with h | h | h
    · subst h
      rfl
    · subst h
      cases x <;> rfl
    · subst h
      cases x <;> cases y <;> rfl
  · intro ts rest pl h
    simp only [parserExtractRing, parsePos, List.filterMap_cons]
    have : (if 3 ≤ ts.length then
        match ts with
        | some x :: some y :: some z :: _ => some (x, y, z)
        | _ => (none : Option (α × α × α))
      else none) = none := by
      split_ifs with hlen
      · cases ts with
        | nil => rfl
        | cons a ts1 =>
          cases a with
          | none => rfl
          | some x =>
            cases ts1 with
            | nil => rfl
            | cons b ts2 =>
              cases b with
              | none => rfl
              | some y =>
                cases ts2 with
                | nil => rfl
                | cons c ts3 =>
                  cases c with
                  | none => rfl
                  | some z => simp [goodPos] at h
      · rfl
    rw [this]

/-- Witness for C6's amended theorem: a 1-token packed list is fatal in the
standalone converter, and a malformed pos node is skipped by the module
parser without affecting the rest of the ring. -/
theorem malformed_coordinates_witness :
    glbRingPoints (α := Nat) (some [some 7]) [] = none ∧
    parserExtractRing (α := Nat) [[none, some 1, some 2], [some 4, some 5, some 6]] none
      = [(4, 5, 6)] := by
  have h := malformed_coordinates_amended (α := Nat)
  constructor
  · exact (h.1 [some 7] []).mpr (Or.inr (by decide))
  · rw [h.2.2 [none, some 1, some 2] [[some 4, some 5, some 6]] none (by decide)]
    rfl

/-- First three values of an extracted coordinate list, as the pos-node
branches of both extractors use them: `points.append((coords[0], coords[1],
coords[2]))` guarded by `len(coords) >= 3`. -/
def firstTriple {α : Type} (cs : List α) : Option (α × α × α) :=
  match cs with
  | a :: b :: c :: _ => some (a, b, c)
  | _ => none

theorem floatAllRows_map_some {α : Type} :
    ∀ (css : List (List α)),
      floatAllRows (css.map (fun cs => cs.map some)) = some css
  | [] => rfl
  | cs :: css => by
      simp only [List.map_cons, floatAllRows, floatAll_map_some cs,
        floatAllRows_map_some css, Option.map_some']

theorem floatAllRows_eq_none {α : Type} :
    ∀ (pe : List (List (Option α))), floatAllRows pe = none ↔ ∃ ts ∈ pe, none ∈ ts
  | [] => by simp [floatAllRows]
  | ts :: pe => by
      cases hf : floatAll ts with
      | none =>
          simp only [floatAllRows, hf, true_iff]
          exact ⟨ts, List.mem_cons_self _ _, (floatAll_eq_none ts).mp hf⟩
      | some cs =>
          simp only [floatAllRows, hf, Option.map_eq_none']
          rw [floatAllRows_eq_none pe]
          constructor
          · rintro ⟨ts1, h1, h2⟩
            exact ⟨ts1, List.mem_cons_of_mem _ h1, h2⟩
          · rintro ⟨ts1, h1, h2⟩
            rcases List.mem_cons.mp h1 with rfl | h1
            · exact absurd ((floatAll_eq_none ts1).mpr h2) (by rw [hf]; simp)
            · exact ⟨ts1, h1, h2⟩

theorem parsePos_step_map_some {α : Type} :
    ∀ (cs : List α),
      (if 3 ≤ (cs.map some).length then
         match cs.map some with
         | some x :: some y :: some z :: _ => some (x, y, z)
         | _ => none
       else none) = firstTriple cs
  | [] => rfl
  | [a] => rfl
  | [a, b] => rfl
  | a :: b :: c :: t => by
      rw [if_pos (by simp only [List.length_map, List.length_cons]; omega)]
      rfl

theorem filterMap_congr_mem {α β : Type} (f g : α → Option β) :
    ∀ (l : List α), (∀ a ∈ l, f a = g a) → l.filterMap f = l.filterMap g
  | [], _ => rfl
  | a :: l, h => by
      rw [List.filterMap_cons, List.filterMap_cons, h a (List.mem_cons_self a l),
        filterMap_congr_mem f g l (fun b hb => h b (List.mem_cons_of_mem a hb))]

theorem parsePos_map_some {α : Type} (css : List (List α)) :
    parsePos (css.map (fun cs => cs.map some)) = css.filterMap firstTriple := by
  unfold parsePos
  rw [List.filterMap_map]
  exact filterMap_congr_mem _ _ css (fun cs _ => parsePos_step_map_some cs)

/-- C7 counterexample: in `CityGMLParser._extract_polygon_coordinates`
(src/parser.py), when a polygon carries both an individual pos node
`(1, 2, 3)` and a packed posList `4 5 6`, the result holds both triples (pos
nodes first), not the packed triples alone as the claim states. -/
theorem coordinate_encoding_precedence_cex :
    parserExtractRing (α := Nat) [[some 1, some 2, some 3]]
        (some [some 4, some 5, some 6]) = [(1, 2, 3), (4, 5, 6)] ∧
    ([((1 : Nat), (2 : Nat), (3 : Nat)), (4, 5, 6)] : List (Nat × Nat × Nat))
      ≠ [(4, 5, 6)] := by
  refine ⟨rfl, by decide⟩

/-- C7 (amended): both coordinate encodings are supported by both extractors;
the standalone converter (gml2glb.py) gives the packed list precedence —
when a posList with text is present the individual pos nodes are ignored
entirely, and when no posList is present each pos node with at least 3
numeric tokens yields its first triple (failing exactly when some pos node
holds a non-numeric token) — while the module parser (src/parser.py)
concatenates the two encodings: pos-node triples first, then the packed-list
triples, with the same per-node triple extraction. -/
theorem coordinate_encoding_amended {α : Type} :
    (∀ (pe : List (List (Option α))) (pl : List (Option α)),
      parserExtractRing pe (some pl) = parsePos pe ++ groupTriples pl) ∧
    (∀ (pe : List (List (Option α))),
      parserExtractRing pe none = parsePos pe) ∧
    (∀ (ts : List (Option α)) (pe pe' : List (List (Option α))),
      glbRingPoints (some ts) pe = glbRingPoints (some ts) pe') ∧
    (∀ (coords : List α) (pe : List (List (Option α))),
      coords.length % 3 = 0 →
        glbRingPoints (some (coords.map some)) pe = some (chunk3 coords)) ∧
    (∀ (css : List (List α)),
      glbRingPoints none (css.map (fun cs => cs.map some)) =
        some (css.filterMap firstTriple)) ∧
    (∀ (css : List (List α)),
      parsePos (css.map (fun cs => cs.map some)) = css.filterMap firstTriple) ∧
    (∀ (pe : List (List (Option α))),
      glbRingPoints none pe = none ↔ ∃ ts ∈ pe, none ∈ ts) := by
  refine ⟨fun pe pl => rfl, fun pe => by simp [parserExtractRing],
    fun ts pe pe' => rfl, ?_, ?_, parsePos_map_some, ?_⟩
  · intro coords pe h
    simp only [glbRingPoints, floatAll_map_some coords, if_pos h]
  · intro css
    unfold glbRingPoints
    rw [floatAllRows_map_some]
    rfl
  · intro pe
    unfold glbRingPoints
    cases hf : floatAllRows pe with
    | none =>
        simp only [hf, true_iff]
        exact (floatAllRows_eq_none pe).mp hf
    | some css =>
        simp only [hf]
        constructor
        · intro hc
          exact absurd hc (by simp)
        · intro hex
          have hn := (floatAllRows_eq_none pe).mpr hex
          rw [hf] at hn
          exact absurd hn (by simp)

/-- Witness for C7's amended theorem: a packed list of 6 numeric tokens and
no pos nodes yields exactly its two triples in the standalone converter; and
with no posList, two pos nodes of 3 and 2 numeric tokens yield exactly the
first node's triple. -/
theorem coordinate_encoding_witness :
    (glbRingPoints (α := Nat)
        (some (([1, 2, 3, 4, 5, 6] : List Nat).map some)) []
      = some [(1, 2, 3), (4, 5, 6)]) ∧
    (glbRingPoints (α := Nat) none
        (([[1, 2, 3], [4, 5]] : List (List Nat)).map (fun cs => cs.map some))
      = some [(1, 2, 3)]) := by
  constructor
  · rw [coordinate_encoding_amended.2.2.2.1 [1, 2, 3, 4, 5, 6] [] (by decide)]
    rfl
  · rw [coordinate_encoding_amended.2.2.2.2.1 [[1, 2, 3], [4, 5]]]
    rfl

end GmlView

namespace GmlView

/-- `GeometryProcessor.get_material_for_type` (src/geometry.py): fixed
5-entry table with a `default` fallback. -/
def get_material_for_type (t : String) : String :=
  if t = "RoofSurface" then "roof"
  else if t = "WallSurface" then "wall"
  else if t = "GroundSurface" then "ground"
  else if t = "ClosureSurface" then "closure"
  else if t = "Building" then "building"
  else "default"

/-- One record (line) of the OBJ file.  Vertex records carry the vertex,
normal records carry no payload here (the source normalizes with a square
root, outside ℚ; only the count and position of normal records matter for
the indexing discipline), face records carry three 1-based vertex indices
and the shared 1-based normal index.  Header and comment lines are opaque. -/
inductive ObjLine (α : Type) where
  | v (p : α)
  | vn
  | g (id : String)
  | usemtl (m : String)
  | face (a b c nIdx : Nat)
  | comment
deriving DecidableEq

/-- The polygon loop of `OBJWriter._write_group` (src/obj_writer.py,
lines 81-116): polygons with fewer than 3 vertices are skipped; otherwise
the polygon's vertex records are written, then one normal record per fan
triangle, while face index triples `vertex_count + vertex_offset + t`
accumulate; `vertex_offset` advances by the polygon's length.  Returns the
emitted records, the accumulated face triples, and the final offset. -/
def groupBody {α : Type} [DecidableEq α] (vc : Nat) :
    Nat → List (List α) → List (ObjLine α) × List (Nat × Nat × Nat) × Nat
  | vo, [] => ([], [], vo)
  | vo, p :: ps =>
      if p.length < 3 then groupBody vc vo ps
      else
        let tris := triangulate_polygon p
        let lines := p.map ObjLine.v ++ tris.map (fun _ => ObjLine.vn)
        let faces := tris.map (fun t => (vc + vo + t.1, vc + vo + t.2.1, vc + vo + t.2.2))
        let r := groupBody vc (vo + p.length) ps
        (lines ++ r.1, faces ++ r.2.1, r.2.2)

/-- The face-writing loop of `_write_group`: the `i`-th collected face is
written with normal index `normal_count + i`. -/
def faceLines {α : Type} (nc : Nat) : List (Nat × Nat × Nat) → List (ObjLine α)
  | [] => []
  | fc :: rest => ObjLine.face fc.1 fc.2.1 fc.2.2 nc :: faceLines (nc + 1) rest

/-- `OBJWriter._write_group` (src/obj_writer.py, lines 63-127): group header
(comment, `g gml_id`, `usemtl ...`), vertex and normal records, face records,
and the updated global 1-based vertex/normal counters (`vertex_count +=
len(group_vertices)`, `normal_count += len(group_faces)`). -/
def writeGroup {α : Type} [DecidableEq α] (vc nc : Nat) (gid : String) (gd : GeoData α) :
    List (ObjLine α) × Nat × Nat :=
  let r := groupBody vc 0 gd.polygons
  ([ObjLine.comment, ObjLine.g gid, ObjLine.usemtl (get_material_for_type gd.element_type)]
     ++ r.1 ++ faceLines nc r.2.1,
   vc + r.2.2, nc + r.2.1.length)

/-- The group loop of `OBJWriter.write_single_obj`: thread the two global
counters through consecutive groups, never resetting them. -/
def writeGroups {α : Type} [DecidableEq α] : Nat → Nat → GeometryMap α → List (ObjLine α)
  | _, _, [] => []
  | vc, nc, idg :: rest =>
      let r := writeGroup vc nc idg.1 idg.2
      r.1 ++ writeGroups r.2.1 r.2.2 rest

/-- `OBJWriter.write_single_obj` (src/obj_writer.py, lines 23-57): header
lines (modelled opaque), then every geometry as a group, with the global
counters starting at 1 (OBJ is 1-based). -/
def write_single_obj {α : Type} [DecidableEq α] (geoms : GeometryMap α) : List (ObjLine α) :=
  [ObjLine.comment, ObjLine.comment, ObjLine.comment, ObjLine.comment] ++
    writeGroups 1 1 geoms

/-- Is this record a vertex record? -/
def isV {α : Type} : ObjLine α → Bool
  | .v _ => true
  | _ => false

/-- Is this record a normal record? -/
def isVN {α : Type} : ObjLine α → Bool
  | .vn => true
  | _ => false

/-- Number of vertex records in a record list. -/
def numV {α : Type} (l : List (ObjLine α)) : Nat := l.countP isV

/-- Number of normal records in a record list. -/
def numVN {α : Type} (l : List (ObjLine α)) : Nat := l.countP isVN

/-- Walk an OBJ record list, tracking how many vertex records (`v`) and
normal records (`n`) have been emitted so far, and check that every face
record's three vertex indices lie in `[1, v]` and its normal index in
`[1, n]` at the moment the face is written. -/
def facesOkB {α : Type} : Nat → Nat → List (ObjLine α) → Bool
  | _, _, [] => true
  | v, n, .face a b c ni :: rest =>
      (decide (1 ≤ a) && decide (a ≤ v) && decide (1 ≤ b) && decide (b ≤ v) &&
       decide (1 ≤ c) && decide (c ≤ v) && decide (1 ≤ ni) && decide (ni ≤ n)) &&
      facesOkB v n rest
  | v, n, .v _ :: rest => facesOkB (v + 1) n rest
  | v, n, .vn :: rest => facesOkB v (n + 1) rest
  | v, n, _ :: rest => facesOkB v n rest

/-- The group names (`g` records) of an OBJ record list, in order. -/
def groupNames {α : Type} (lines : List (ObjLine α)) : List String :=
  lines.filterMap (fun l =>
    match l with
    | .g s => some s
    | _ => none)

/-- One entry of the metadata index's `objects` mapping. -/
structure MetaEntry where
  element_type : String
  polygon_count : Nat
  metadata : List (String × String)
deriving DecidableEq

/-- The metadata index written next to the OBJ output. -/
structure MetaIndex where
  offset : Q3
  total_objects : Nat
  objects : List (String × MetaEntry)
deriving DecidableEq

/-- `OBJWriter._write_metadata` (src/obj_writer.py, lines 178-202): offset
verbatim, `total_objects = len(geometries)`, and one `objects` entry per
record with its element type, `len(polygons)` and metadata mapping. -/
def objWriteMetadata {α : Type} (geoms : GeometryMap α) (off : Q3) : MetaIndex :=
  { offset := off,
    total_objects := geoms.length,
    objects := geoms.map (fun p =>
      (p.1, { element_type := p.2.element_type,
              polygon_count := p.2.polygons.length,
              metadata := p.2.metadata })) }

/-- Python dict assignment on an insertion-ordered association list:
overwrite in place if the key exists, else append. -/
def dictInsert {β : Type} (k : String) (v : β) : List (String × β) → List (String × β)
  | [] => [(k, v)]
  | (k', v') :: rest => if k' = k then (k, v) :: rest else (k', v') :: dictInsert k v rest

/-- The retention logic of `CityGMLParser.parse` (src/parser.py, lines
58-79): each identified element contributes its extracted coordinate lists;
empty coordinate lists are dropped (`if coords:`), and the element is stored
in the geometry dict only if at least one non-empty list remains
(`if geo_data['polygons']:`).  Inline name/description metadata is not
modelled (empty mapping). -/
def parseGeometries {α : Type} (objs : List (String × String × List (List α))) :
    GeometryMap α :=
  objs.foldl (fun acc o =>
    if (o.2.2.filter (fun c => !c.isEmpty)).isEmpty then acc
    else dictInsert o.1
      { element_type := o.2.1,
        polygons := o.2.2.filter (fun c => !c.isEmpty),
        metadata := [] } acc) []

/-- One surface of a building in gml2glb.py: its semantic type and its
exterior-ring points (stored only when at least 3 points were extracted). -/
structure Surface (α : Type) where
  stype : String
  points : List α
deriving DecidableEq

/-- The per-building record of `parse_citygml` (gml2glb.py); building
attributes other than the surface list are not needed by the claims below. -/
structure BuildingInfo (α : Type) where
  surfaces : List (Surface α)
deriving DecidableEq

/-- Number of floats pushed into `all_vertices` for one building in
`create_glb` (gml2glb.py, lines 180-200): 9 per fan triangle of each
surface. -/
def buildingVertexFloats {α : Type} (b : BuildingInfo α) : Nat :=
  (b.surfaces.map (fun s => 9 * (triangulate_polygon_glb s.points).length)).sum

/-- The mesh-emission decision of `create_glb` (gml2glb.py, lines 176-277):
one mesh named after the building id, skipping buildings with no surfaces
(`if not building_info['surfaces']: continue`) and buildings whose flattened
vertex list is empty (`if not all_vertices: continue`). -/
def meshKeep {α : Type} (p : String × BuildingInfo α) : Option String :=
  if p.2.surfaces.isEmpty then none
  else if buildingVertexFloats p.2 = 0 then none
  else some p.1

/-- See `meshKeep`: the decision and name for one building. -/
def glbMeshNames {α : Type} (bd : List (String × BuildingInfo α)) : List String :=
  bd.filterMap meshKeep

/-- The node names of `create_glb` (gml2glb.py, line 291): one node per
mesh, named after the same building id. -/
def glbNodeNames {α : Type} (bd : List (String × BuildingInfo α)) : List String :=
  glbMeshNames bd

/-- The metadata index of `write_metadata` (gml2glb.py, lines 336-371),
restricted to the fields the claims speak about: offset verbatim,
`total_objects = len(buildings_data)`, and per building the fixed element
type `Building` and `polygon_count = len(surfaces)` (the nested metadata
payload of name/description/height/storeys/surfaceTypes is not modelled). -/
structure GlbMetaIndex where
  offset : Q3
  total_objects : Nat
  objects : List (String × String × Nat)
deriving DecidableEq

/-- See `GlbMetaIndex`. -/
def glbWriteMetadata {α : Type} (bd : List (String × BuildingInfo α)) (off : Q3) :
    GlbMetaIndex :=
  { offset := off,
    total_objects := bd.length,
    objects := bd.map (fun p => (p.1, "Building", p.2.surfaces.length)) }

/-- One surface record of simple_gml2obj.py: surface gml:id, type and
points; one record per polygon (a surface element with several polygons
yields several records with the same id). -/
structure SimpleSurface (α : Type) where
  sid : String
  stype : String
  points : List α
deriving DecidableEq

/-- `write_metadata` of simple_gml2obj.py (lines 140-164): offset verbatim,
`total_objects = len(surfaces)` (the number of surface records, not of
distinct identifiers), and a dict keyed by surface id where each assignment
stores element type `Surface`, `polygon_count` fixed at 1 and a name-only
metadata mapping — later records with the same id overwrite earlier ones. -/
def simpleObjectsFold {α : Type} (surfaces : List (SimpleSurface α))
    (acc : List (String × MetaEntry)) : List (String × MetaEntry) :=
  surfaces.foldl (fun acc s =>
    dictInsert s.sid
      { element_type := "Surface", polygon_count := 1, metadata := [("name", s.sid)] }
      acc) acc

/-- See `SimpleSurface`: the dict-building loop of simple_gml2obj.py's
`write_metadata`. -/
def simpleWriteMetadata {α : Type} (surfaces : List (SimpleSurface α)) (off : Q3) :
    MetaIndex :=
  { offset := off,
    total_objects := surfaces.length,
    objects := simpleObjectsFold surfaces [] }

end GmlView

namespace GmlView

theorem dedupClosed_length_le {α : Type} [DecidableEq α] (l : List α) :
    (dedupClosed l).length ≤ l.length := by
  unfold dedupClosed
  split_ifs with h
  · simp [List.length_dropLast]
  · exact Nat.le_refl _

theorem triangulate_polygon_index_lt {α : Type} [DecidableEq α] (p : List α) :
    ∀ t ∈ triangulate_polygon p, t.1 < p.length ∧ t.2.1 < p.length ∧ t.2.2 < p.length := by
  intro t ht
  have hle := dedupClosed_length_le p
  by_cases h : (dedupClosed p).length < 3
  · simp only [triangulate_polygon, if_pos h] at ht
    exact absurd ht (List.not_mem_nil t)
  · simp only [triangulate_polygon, if_neg h, List.mem_map] at ht
    obtain ⟨i, hi, rfl⟩ := ht
    have := range'_one_map_mem hi
    simp only
    omega

theorem numV_cons {α : Type} (x : ObjLine α) (l : List (ObjLine α)) :
    numV (x :: l) = (if isV x then 1 else 0) + numV l := by
  simp only [numV, List.countP_cons]
  split_ifs with h <;> omega

theorem numVN_cons {α : Type} (x : ObjLine α) (l : List (ObjLine α)) :
    numVN (x :: l) = (if isVN x then 1 else 0) + numVN l := by
  simp only [numVN, List.countP_cons]
  split_ifs with h <;> omega

theorem facesOkB_append {α : Type} :
    ∀ (l1 l2 : List (ObjLine α)) (v n : Nat),
      facesOkB v n (l1 ++ l2) =
        (facesOkB v n l1 && facesOkB (v + numV l1) (n + numVN l1) l2)
  | [], l2, v, n => by simp [facesOkB, numV, numVN]
  | x :: l1, l2, v, n => by
      cases x with
      | v p =>
          have e1 : v + numV (ObjLine.v p :: l1) = (v + 1) + numV l1 := by
            rw [numV_cons]
            simp [isV]
            omega
          have e2 : n + numVN (ObjLine.v p :: l1) = n + numVN l1 := by
            rw [numVN_cons]
            simp [isVN]
          simp only [List.cons_append]
          show facesOkB (v + 1) n (l1 ++ l2) = _
          rw [facesOkB_append l1 l2 (v + 1) n, e1, e2]
          rfl
      | vn =>
          have e1 : v + numV (ObjLine.vn :: l1) = v + numV l1 := by
            rw [numV_cons]
            simp [isV]
          have e2 : n + numVN (ObjLine.vn :: l1) = (n + 1) + numVN l1 := by
            rw [numVN_cons]
            simp [isVN]
            omega
          simp only [List.cons_append]
          show facesOkB v (n + 1) (l1 ++ l2) = _
          rw [facesOkB_append l1 l2 v (n + 1), e1, e2]
          rfl
      | face a b c ni =>
          have e1 : v + numV (ObjLine.face a b c ni :: l1) = v + numV l1 := by
            rw [numV_cons]
            simp [isV]
          have e2 : n + numVN (ObjLine.face a b c ni :: l1) = n + numVN l1 := by
            rw [numVN_cons]
            simp [isVN]
          simp only [List.cons_append, facesOkB, List.append_eq]
          rw [facesOkB_append l1 l2 v n, e1, e2]
          simp [Bool.and_assoc]
      | g s =>
          have e1 : v + numV (ObjLine.g s :: l1) = v + numV l1 := by
            rw [numV_cons]
            simp [isV]
          have e2 : n + numVN (ObjLine.g s :: l1) = n + numVN l1 := by
            rw [numVN_cons]
            simp [isVN]
          simp only [List.cons_append]
          show facesOkB v n (l1 ++ l2) = _
          rw [facesOkB_append l1 l2 v n, e1, e2]
          rfl
      | usemtl s =>
          have e1 : v + numV (ObjLine.usemtl s :: l1) = v + numV l1 := by
            rw [numV_cons]
            simp [isV]
          have e2 : n + numVN (ObjLine.usemtl s :: l1) = n + numVN l1 := by
            rw [numVN_cons]
            simp [isVN]
          simp only [List.cons_append]
          show facesOkB v n (l1 ++ l2) = _
          rw [facesOkB_append l1 l2 v n, e1, e2]
          rfl
      | comment =>
          have e1 : v + numV (ObjLine.comment :: l1) = v + numV l1 := by
            rw [numV_cons]
            simp [isV]
          have e2 : n + numVN (ObjLine.comment :: l1) = n + numVN l1 := by
            rw [numVN_cons]
            simp [isVN]
          simp only [List.cons_append]
          show facesOkB v n (l1 ++ l2) = _
          rw [facesOkB_append l1 l2 v n, e1, e2]
          rfl

theorem facesOkB_vvn {α : Type} :
    ∀ (l : List (ObjLine α)), (∀ x ∈ l, isV x || isVN x = true) →
      ∀ v n, facesOkB v n l = true
  | [], _, _, _ => rfl
  | x :: l, h, v, n => by
      have hx := h x (List.mem_cons_self x l)
      have hl : ∀ y ∈ l, isV y || isVN y = true :=
        fun y hy => h y (List.mem_cons_of_mem x hy)
      cases x with
      | v p => exact facesOkB_vvn l hl (v + 1) n
      | vn => exact facesOkB_vvn l hl v (n + 1)
      | face a b c ni => simp [isV, isVN] at hx
      | g s => simp [isV, isVN] at hx
      | usemtl s => simp [isV, isVN] at hx
      | comment => simp [isV, isVN] at hx

end GmlView

namespace GmlView

theorem numV_append {α : Type} (a b : List (ObjLine α)) : numV (a ++ b) = numV a + numV b :=
  List.countP_append _ _ _

theorem numVN_append {α : Type} (a b : List (ObjLine α)) : numVN (a ++ b) = numVN a + numVN b :=
  List.countP_append _ _ _

theorem numV_map_v {α : Type} : ∀ (p : List α), numV (p.map ObjLine.v) = p.length
  | [] => rfl
  | x :: xs => by
      rw [List.map_cons, numV_cons, numV_map_v xs, List.length_cons]
      show 1 + xs.length = xs.length + 1
      omega

theorem numVN_map_v {α : Type} : ∀ (p : List α), numVN (p.map ObjLine.v) = 0
  | [] => rfl
  | x :: xs => by
      rw [List.map_cons, numVN_cons, numVN_map_v xs]
      rfl

theorem numV_map_vn {α β : Type} : ∀ (ts : List β),
    numV (ts.map (fun _ => (ObjLine.vn : ObjLine α))) = 0
  | [] => rfl
  | x :: xs => by
      rw [List.map_cons, numV_cons, numV_map_vn xs]
      rfl

theorem numVN_map_vn {α β : Type} : ∀ (ts : List β),
    numVN (ts.map (fun _ => (ObjLine.vn : ObjLine α))) = ts.length
  | [] => rfl
  | x :: xs => by
      rw [List.map_cons, numVN_cons, numVN_map_vn xs, List.length_cons]
      show 1 + xs.length = xs.length + 1
      omega

theorem groupBody_spec {α : Type} [DecidableEq α] (vc : Nat) :
    ∀ (ps : List (List α)) (vo : Nat),
      vo ≤ (groupBody vc vo ps).2.2 ∧
      numV (groupBody vc vo ps).1 + vo = (groupBody vc vo ps).2.2 ∧
      numVN (groupBody vc vo ps).1 = (groupBody vc vo ps).2.1.length ∧
      (∀ f ∈ (groupBody vc vo ps).2.1,
        vc ≤ f.1 ∧ f.1 < vc + (groupBody vc vo ps).2.2 ∧
        vc ≤ f.2.1 ∧ f.2.1 < vc + (groupBody vc vo ps).2.2 ∧
        vc ≤ f.2.2 ∧ f.2.2 < vc + (groupBody vc vo ps).2.2) ∧
      (∀ x ∈ (groupBody vc vo ps).1, isV x || isVN x = true)
  | [], vo => by
      refine ⟨Nat.le_refl _, ?_, rfl, ?_, ?_⟩
      · simp [groupBody, numV]
      · intro f hf
        exact absurd hf (List.not_mem_nil f)
      · intro x hx
        exact absurd hx (List.not_mem_nil x)
  | p :: ps, vo => by
      by_cases h : p.length < 3
      · simp only [groupBody, if_pos h]
        exact groupBody_spec vc ps vo
      · obtain ⟨ih1, ih2, ih3, ih4, ih5⟩ := groupBody_spec vc ps (vo + p.length)
        have htri := triangulate_polygon_index_lt p
        simp only [groupBody, if_neg h]
        set r := groupBody vc (vo + p.length) ps with hr
        refine ⟨by omega, ?_, ?_, ?_, ?_⟩
        · simp only [numV_append, numV_map_v, numV_map_vn]
          omega
        · simp only [numVN_append, numVN_map_v, numVN_map_vn, List.length_append,
            List.length_map]
          omega
        · intro f hf
          rcases List.mem_append.mp hf with hf | hf
          · simp only [List.mem_map] at hf
            obtain ⟨t, ht, rfl⟩ := hf
            have hb := htri t ht
            simp only
            omega
          · have hb := ih4 f hf
            omega
        · intro x hx
          rcases List.mem_append.mp hx with hx | hx
          · rcases List.mem_append.mp hx with hx | hx
            · simp only [List.mem_map] at hx
              obtain ⟨a, _, rfl⟩ := hx
              rfl
            · simp only [List.mem_map] at hx
              obtain ⟨a, _, rfl⟩ := hx
              rfl
          · exact ih5 x hx

theorem facesOkB_hdr {α : Type} (gid m : String) (X : List (ObjLine α)) (v n : Nat) :
    facesOkB v n (ObjLine.comment :: ObjLine.g gid :: ObjLine.usemtl m :: X) =
      facesOkB v n X := rfl

theorem numV_hdr {α : Type} (gid m : String) (X : List (ObjLine α)) :
    numV (ObjLine.comment :: ObjLine.g gid :: ObjLine.usemtl m :: X) = numV X := by
  simp [numV_cons, isV]

theorem numVN_hdr {α : Type} (gid m : String) (X : List (ObjLine α)) :
    numVN (ObjLine.comment :: ObjLine.g gid :: ObjLine.usemtl m :: X) = numVN X := by
  simp [numVN_cons, isVN]

theorem numV_faceLines {α : Type} :
    ∀ (faces : List (Nat × Nat × Nat)) (k : Nat),
      numV (faceLines k faces : List (ObjLine α)) = 0
  | [], _ => rfl
  | fc :: rest, k => by
      show numV (ObjLine.face fc.1 fc.2.1 fc.2.2 k :: faceLines (k + 1) rest) = 0
      rw [numV_cons, numV_faceLines rest (k + 1)]
      rfl

theorem numVN_faceLines {α : Type} :
    ∀ (faces : List (Nat × Nat × Nat)) (k : Nat),
      numVN (faceLines k faces : List (ObjLine α)) = 0
  | [], _ => rfl
  | fc :: rest, k => by
      show numVN (ObjLine.face fc.1 fc.2.1 fc.2.2 k :: faceLines (k + 1) rest) = 0
      rw [numVN_cons, numVN_faceLines rest (k + 1)]
      rfl

theorem facesOkB_faceLines {α : Type} :
    ∀ (faces : List (Nat × Nat × Nat)) (v n k : Nat),
      (∀ f ∈ faces,
        1 ≤ f.1 ∧ f.1 ≤ v ∧ 1 ≤ f.2.1 ∧ f.2.1 ≤ v ∧ 1 ≤ f.2.2 ∧ f.2.2 ≤ v) →
      1 ≤ k → k + faces.length ≤ n + 1 →
      facesOkB v n (faceLines k faces : List (ObjLine α)) = true
  | [], _, _, _, _, _, _ => rfl
  | fc :: rest, v, n, k, h, hk, hkn => by
      have hrec := facesOkB_faceLines (α := α) rest v n (k + 1)
        (fun f hf => h f (List.mem_cons_of_mem fc hf)) (by omega)
        (by simp only [List.length_cons] at hkn; omega)
      have hfc := h fc (List.mem_cons_self fc rest)
      simp only [List.length_cons] at hkn
      simp only [faceLines, facesOkB, hrec, Bool.and_true, Bool.and_eq_true,
        decide_eq_true_eq]
      omega

theorem writeGroup_spec {α : Type} [DecidableEq α] (v n : Nat) (gid : String)
    (gd : GeoData α) :
    facesOkB v n (writeGroup (v + 1) (n + 1) gid gd).1 = true ∧
    (writeGroup (v + 1) (n + 1) gid gd).2.1 =
      (v + numV (writeGroup (v + 1) (n + 1) gid gd).1) + 1 ∧
    (writeGroup (v + 1) (n + 1) gid gd).2.2 =
      (n + numVN (writeGroup (v + 1) (n + 1) gid gd).1) + 1 := by
  obtain ⟨hle, hnv, hnvn, hfb, hvvn⟩ := groupBody_spec (v + 1) gd.polygons 0
  set r := groupBody (v + 1) 0 gd.polygons with hr
  have hnv0 : numV r.1 = r.2.2 := by omega
  have hlines : (writeGroup (v + 1) (n + 1) gid gd).1 =
      ObjLine.comment :: ObjLine.g gid ::
        ObjLine.usemtl (get_material_for_type gd.element_type) ::
        (r.1 ++ faceLines (n + 1) r.2.1) := by
    simp [writeGroup, ← hr, List.append_assoc]
  have hnumv : numV (writeGroup (v + 1) (n + 1) gid gd).1 = r.2.2 := by
    rw [hlines, numV_hdr, numV_append, numV_faceLines, hnv0]
    omega
  have hnumvn : numVN (writeGroup (v + 1) (n + 1) gid gd).1 = r.2.1.length := by
    rw [hlines, numVN_hdr, numVN_append, numVN_faceLines, hnvn]
    omega
  refine ⟨?_, ?_, ?_⟩
  · rw [hlines, facesOkB_hdr, facesOkB_append, facesOkB_vvn r.1 hvvn v n,
      Bool.true_and, hnv0, hnvn]
    apply facesOkB_faceLines
    · intro f hf
      have hb := hfb f hf
      omega
    · omega
    · omega
  · have : (writeGroup (v + 1) (n + 1) gid gd).2.1 = (v + 1) + r.2.2 := by
      simp [writeGroup, ← hr]
    rw [this, hnumv]
    omega
  · have : (writeGroup (v + 1) (n + 1) gid gd).2.2 = (n + 1) + r.2.1.length := by
      simp [writeGroup, ← hr]
    rw [this, hnumvn]
    omega

theorem writeGroups_facesOk {α : Type} [DecidableEq α] :
    ∀ (geoms : GeometryMap α) (v n : Nat),
      facesOkB v n (writeGroups (v + 1) (n + 1) geoms) = true
  | [], _, _ => rfl
  | idg :: rest, v, n => by
      obtain ⟨h1, h2, h3⟩ := writeGroup_spec v n idg.1 idg.2
      set w := writeGroup (v + 1) (n + 1) idg.1 idg.2 with hw
      have hstep : writeGroups (v + 1) (n + 1) (idg :: rest) =
          w.1 ++ writeGroups w.2.1 w.2.2 rest := by
        simp [writeGroups, ← hw]
      rw [hstep, facesOkB_append, h1, Bool.true_and, h2, h3]
      exact writeGroups_facesOk rest (v + numV w.1) (n + numVN w.1)

/-- C10: in the OBJ record stream produced by `write_single_obj`, every face
record's three vertex indices lie in `[1, V]`, where `V` is the number of
vertex records already emitted when the face is written, and its normal index
lies in `[1, N]` for the normal records likewise; the file-wide 1-based
counters are threaded across groups without reset, so no face references a
vertex or normal that has not been emitted (`facesOkB` recomputes the running
counts from the stream itself, starting at 0). -/
theorem obj_face_indices_in_bounds {α : Type} [DecidableEq α] (geoms : GeometryMap α) :
    facesOkB 0 0 (write_single_obj geoms) = true := by
  show facesOkB 0 0 (writeGroups 1 1 geoms) = true
  exact writeGroups_facesOk geoms 0 0

end GmlView

namespace GmlView

theorem triangulate_polygon_glb_length {α : Type} (points : List α) :
    (triangulate_polygon_glb points).length =
      if points.length < 3 then 0 else points.length - 2 := by
  cases points with
  | nil => rfl
  | cons p0 rest =>
      simp only [triangulate_polygon_glb, List.length_map, List.length_zip,
        List.length_tail, List.length_cons, apply_ite List.length, List.length_nil]
      split_ifs with h
      · rfl
      · omega

theorem groupNames_vvn {α : Type} :
    ∀ (l : List (ObjLine α)), (∀ x ∈ l, isV x || isVN x = true) → groupNames l = []
  | [], _ => rfl
  | x :: l, h => by
      have hx := h x (List.mem_cons_self x l)
      have hrec := groupNames_vvn l (fun y hy => h y (List.mem_cons_of_mem x hy))
      cases x with
      | v p => simpa [groupNames, List.filterMap_cons] using hrec
      | vn => simpa [groupNames, List.filterMap_cons] using hrec
      | face a b c ni => simp [isV, isVN] at hx
      | g s => simp [isV, isVN] at hx
      | usemtl s => simp [isV, isVN] at hx
      | comment => simp [isV, isVN] at hx

theorem groupNames_faceLines {α : Type} :
    ∀ (faces : List (Nat × Nat × Nat)) (k : Nat),
      groupNames (faceLines k faces : List (ObjLine α)) = []
  | [], _ => rfl
  | fc :: rest, k => by
      simpa [faceLines, groupNames, List.filterMap_cons] using
        groupNames_faceLines (α := α) rest (k + 1)

theorem groupNames_append {α : Type} (a b : List (ObjLine α)) :
    groupNames (a ++ b) = groupNames a ++ groupNames b :=
  List.filterMap_append a b _

theorem groupNames_writeGroup {α : Type} [DecidableEq α] (vc nc : Nat) (gid : String)
    (gd : GeoData α) : groupNames (writeGroup vc nc gid gd).1 = [gid] := by
  obtain ⟨_, _, _, _, hvvn⟩ := groupBody_spec vc gd.polygons 0
  set r := groupBody vc 0 gd.polygons with hr
  have hlines : (writeGroup vc nc gid gd).1 =
      ObjLine.comment :: ObjLine.g gid ::
        ObjLine.usemtl (get_material_for_type gd.element_type) ::
        (r.1 ++ faceLines nc r.2.1) := by
    simp [writeGroup, ← hr, List.append_assoc]
  have e1 : groupNames (r.1 ++ faceLines nc r.2.1 : List (ObjLine α)) = [] := by
    rw [groupNames_append, groupNames_vvn r.1 hvvn, groupNames_faceLines]
    rfl
  rw [hlines]
  show gid :: groupNames (r.1 ++ faceLines nc r.2.1) = [gid]
  rw [e1]

theorem groupNames_writeGroups {α : Type} [DecidableEq α] :
    ∀ (geoms : GeometryMap α) (vc nc : Nat),
      groupNames (writeGroups vc nc geoms) = geoms.map Prod.fst
  | [], _, _ => rfl
  | idg :: rest, vc, nc => by
      set w := writeGroup vc nc idg.1 idg.2 with hw
      have hstep : writeGroups vc nc (idg :: rest) =
          w.1 ++ writeGroups w.2.1 w.2.2 rest := by
        simp [writeGroups, ← hw]
      rw [hstep, groupNames_append, hw, groupNames_writeGroup,
        groupNames_writeGroups rest _ _]
      rfl

theorem groupNames_write_single_obj {α : Type} [DecidableEq α] (geoms : GeometryMap α) :
    groupNames (write_single_obj geoms) = geoms.map Prod.fst := by
  show groupNames (writeGroups 1 1 geoms) = geoms.map Prod.fst
  exact groupNames_writeGroups geoms 1 1

theorem dictInsert_not_mem {β : Type} (k : String) (v : β) :
    ∀ (l : List (String × β)), k ∉ l.map Prod.fst → dictInsert k v l = l ++ [(k, v)]
  | [], _ => rfl
  | (k', v') :: rest, h => by
      simp only [List.map_cons, List.mem_cons] at h
      push_neg at h
      have hk : ¬ k' = k := fun e => h.1 e.symm
      simp only [dictInsert, dictInsert_not_mem k v rest h.2]
      rw [if_neg hk]
      rfl

theorem dictInsert_keys {β : Type} (k : String) (v : β) :
    ∀ (l : List (String × β)),
      (dictInsert k v l).map Prod.fst =
        if k ∈ l.map Prod.fst then l.map Prod.fst else l.map Prod.fst ++ [k]
  | [] => by simp [dictInsert]
  | (k', v') :: rest => by
      by_cases he : k' = k
      · subst he
        simp [dictInsert]
      · have hrec := dictInsert_keys k v rest
        simp only [dictInsert]
        rw [if_neg he]
        simp only [List.map_cons, hrec]
        by_cases hm : k ∈ rest.map Prod.fst
        · rw [if_pos hm, if_pos (List.mem_cons_of_mem k' hm)]
        · rw [if_neg hm, if_neg ?_]
          · rfl
          · intro hc
            rcases List.mem_cons.mp hc with hc | hc
            · exact he hc.symm
            · exact hm hc

theorem dictInsert_mem_keys {β : Type} (k : String) (v : β) (l : List (String × β))
    (sid : String) :
    sid ∈ (dictInsert k v l).map Prod.fst ↔ sid = k ∨ sid ∈ l.map Prod.fst := by
  rw [dictInsert_keys]
  split_ifs with hm
  · constructor
    · exact fun h => Or.inr h
    · intro h
      rcases h with rfl | h
      · exact hm
      · exact h
  · rw [List.mem_append]
    constructor
    · intro h
      rcases h with h | h
      · exact Or.inr h
      · simp at h
        exact Or.inl h
    · intro h
      rcases h with rfl | h
      · exact Or.inr (by simp)
      · exact Or.inl h

theorem dictInsert_nodup {β : Type} (k : String) (v : β) (l : List (String × β))
    (h : (l.map Prod.fst).Nodup) : ((dictInsert k v l).map Prod.fst).Nodup := by
  rw [dictInsert_keys]
  split_ifs with hm
  · exact h
  · simp [List.nodup_append, h, hm]

theorem dictInsert_values {β : Type} (P : β → Prop) (k : String) (v : β)
    (hv : P v) :
    ∀ (l : List (String × β)), (∀ x ∈ l, P x.2) → ∀ x ∈ dictInsert k v l, P x.2
  | [], _, x, hx => by
      simp only [dictInsert, List.mem_singleton] at hx
      rw [hx]
      exact hv
  | (k', v') :: rest, h, x, hx => by
      simp only [dictInsert] at hx
      split_ifs at hx with hk
      · rcases List.mem_cons.mp hx with rfl | hx
        · exact hv
        · exact h x (List.mem_cons_of_mem _ hx)
      · rcases List.mem_cons.mp hx with rfl | hx
        · exact h _ (List.mem_cons_self _ _)
        · exact dictInsert_values P k v hv rest
            (fun y hy => h y (List.mem_cons_of_mem _ hy)) x hx

theorem nodup_keys_inj {γ : Type} (key : γ → String) :
    ∀ (l : List γ), (l.map key).Nodup → ∀ a ∈ l, ∀ b ∈ l, key a = key b → a = b
  | [], _, a, ha, _, _, _ => absurd ha (List.not_mem_nil a)
  | x :: xs, h, a, ha, b, hb, hk => by
      simp only [List.map_cons, List.nodup_cons] at h
      rcases List.mem_cons.mp ha with hax | ha
      · rcases List.mem_cons.mp hb with hbx | hb
        · rw [hax, hbx]
        · exfalso
          apply h.1
          have hmem : key b ∈ List.map key xs := List.mem_map_of_mem key hb
          rw [← hk, hax] at hmem
          exact hmem
      · rcases List.mem_cons.mp hb with hbx | hb
        · exfalso
          apply h.1
          have hmem : key a ∈ List.map key xs := List.mem_map_of_mem key ha
          rw [hk, hbx] at hmem
          exact hmem
        · exact nodup_keys_inj key xs h.2 a ha b hb hk

end GmlView

namespace GmlView

/-- The record a retained object contributes to the parsed geometry map. -/
def parseRecord {α : Type} (o : String × String × List (List α)) :
    Option (String × GeoData α) :=
  if (o.2.2.filter (fun c => !c.isEmpty)).isEmpty then none
  else some (o.1,
    { element_type := o.2.1,
      polygons := o.2.2.filter (fun c => !c.isEmpty),
      metadata := [] })

theorem parseGeometries_fold {α : Type} :
    ∀ (objs : List (String × String × List (List α))) (acc : GeometryMap α),
      (∀ o ∈ objs, o.1 ∉ acc.map Prod.fst) →
      (objs.map (fun o => o.1)).Nodup →
      objs.foldl (fun acc o =>
        if (o.2.2.filter (fun c => !c.isEmpty)).isEmpty then acc
        else dictInsert o.1
          { element_type := o.2.1,
            polygons := o.2.2.filter (fun c => !c.isEmpty),
            metadata := [] } acc) acc
        = acc ++ objs.filterMap parseRecord
  | [], acc, _, _ => by simp
  | o :: objs, acc, hdis, hnd => by
      simp only [List.map_cons, List.nodup_cons] at hnd
      simp only [List.foldl_cons, List.filterMap_cons]
      by_cases hp : (o.2.2.filter (fun c => !c.isEmpty)).isEmpty
      · rw [if_pos hp]
        have hrec := parseGeometries_fold objs acc
          (fun o' ho' => hdis o' (List.mem_cons_of_mem o ho')) hnd.2
        rw [hrec]
        have : parseRecord o = none := by
          simp only [parseRecord, if_pos hp]
        rw [this]
      · rw [if_neg hp]
        have hnotin : o.1 ∉ acc.map Prod.fst := hdis o (List.mem_cons_self o objs)
        set gd : GeoData α :=
          { element_type := o.2.1,
            polygons := o.2.2.filter (fun c => !c.isEmpty),
            metadata := [] } with hgd
        rw [dictInsert_not_mem _ _ acc hnotin]
        have hdis' : ∀ o' ∈ objs, o'.1 ∉ (acc ++ [(o.1, gd)]).map Prod.fst := by
          intro o' ho'
          simp only [List.map_append, List.mem_append, List.map_cons, List.map_nil,
            List.mem_singleton]
          push_neg
          refine ⟨hdis o' (List.mem_cons_of_mem o ho'), ?_⟩
          intro hc
          exact hnd.1 (hc ▸ List.mem_map_of_mem (fun o => o.1) ho')
        have hrec := parseGeometries_fold objs (acc ++ [(o.1, gd)]) hdis' hnd.2
        rw [hrec]
        have hpr : parseRecord o = some (o.1, gd) := by
          simp only [parseRecord, if_neg hp, hgd]
        rw [hpr, List.append_assoc]
        rfl

theorem parseGeometries_eq_filterMap {α : Type}
    (objs : List (String × String × List (List α)))
    (hnd : (objs.map (fun o => o.1)).Nodup) :
    parseGeometries objs = objs.filterMap parseRecord := by
  unfold parseGeometries
  have := parseGeometries_fold objs [] (by simp) hnd
  simpa using this

theorem meshKeep_eq_some {α : Type} (p : String × BuildingInfo α) (s : String)
    (h : meshKeep p = some s) : s = p.1 := by
  unfold meshKeep at h
  split_ifs at h
  exact (Option.some.injEq _ _).mp h.symm

theorem glbMeshNames_count_not_mem {α : Type} :
    ∀ (bd : List (String × BuildingInfo α)) (bid : String),
      bid ∉ bd.map Prod.fst → (glbMeshNames bd).count bid = 0
  | [], _, _ => rfl
  | p :: bd, bid, h => by
      simp only [List.map_cons, List.mem_cons] at h
      push_neg at h
      have hrec := glbMeshNames_count_not_mem bd bid h.2
      cases hk : meshKeep p with
      | none =>
          rw [glbMeshNames, List.filterMap_cons_none hk]
          exact hrec
      | some s =>
          rw [glbMeshNames, List.filterMap_cons_some hk]
          have hs : s = p.1 := meshKeep_eq_some p s hk
          rw [List.count_cons_of_ne (by rw [hs]; exact fun e => h.1 e) _]
          exact hrec

theorem glbMeshNames_count_mem {α : Type} :
    ∀ (bd : List (String × BuildingInfo α)) (bid : String) (b : BuildingInfo α),
      (bd.map Prod.fst).Nodup → (bid, b) ∈ bd →
      (glbMeshNames bd).count bid =
        if meshKeep (bid, b) = some bid then 1 else 0
  | [], _, _, _, hm => absurd hm (List.not_mem_nil _)
  | p :: bd, bid, b, hnd, hm => by
      simp only [List.map_cons, List.nodup_cons] at hnd
      rcases List.mem_cons.mp hm with rfl | hm
      · have hnot : bid ∉ bd.map Prod.fst := hnd.1
        have h0 := glbMeshNames_count_not_mem bd bid hnot
        cases hk : meshKeep (bid, b) with
        | none =>
            rw [glbMeshNames, List.filterMap_cons_none hk, if_neg (by simp [hk])]
            exact h0
        | some s =>
            have hs : s = bid := meshKeep_eq_some (bid, b) s hk
            subst hs
            rw [glbMeshNames, List.filterMap_cons_some hk, if_pos rfl,
              List.count_cons_self]
            unfold glbMeshNames at h0
            rw [h0]
      · have hne : p.1 ≠ bid := by
          intro e
          exact hnd.1 (e ▸ List.mem_map_of_mem Prod.fst hm)
        have hrec := glbMeshNames_count_mem bd bid b hnd.2 hm
        cases hk : meshKeep p with
        | none =>
            rw [glbMeshNames, List.filterMap_cons_none hk]
            exact hrec
        | some s =>
            rw [glbMeshNames, List.filterMap_cons_some hk]
            have hs : s = p.1 := meshKeep_eq_some p s hk
            rw [List.count_cons_of_ne (by rw [hs]; exact fun e => hne e.symm) _]
            exact hrec

theorem buildingVertexFloats_pos {α : Type} (b : BuildingInfo α)
    (hne : b.surfaces ≠ [])
    (h3 : ∀ s ∈ b.surfaces, 3 ≤ s.points.length) : buildingVertexFloats b ≠ 0 := by
  cases hs : b.surfaces with
  | nil => exact absurd hs hne
  | cons s0 rest =>
      have h30 : 3 ≤ s0.points.length := h3 s0 (by rw [hs]; exact List.mem_cons_self _ _)
      have htri : (triangulate_polygon_glb s0.points).length =
          s0.points.length - 2 := by
        rw [triangulate_polygon_glb_length, if_neg (by omega)]
      unfold buildingVertexFloats
      rw [hs]
      simp only [List.map_cons, List.sum_cons, htri]
      omega

end GmlView

namespace GmlView

theorem parseRecord_some {α : Type} (o : String × String × List (List α))
    (x : String × GeoData α) (h : parseRecord o = some x) :
    x.1 = o.1 ∧ ¬ (o.2.2.filter (fun c => !c.isEmpty)).isEmpty = true := by
  unfold parseRecord at h
  split_ifs at h with hp
  refine ⟨?_, hp⟩
  have he := Option.some.inj h
  rw [← he]

/-- C4: in the OBJ pipeline, every key of the metadata index's `objects`
mapping with positive `polygon_count` names a group in the text mesh output;
in the GLB pipeline (building identifiers, dict keys distinct, every parsed
surface carrying at least 3 points, which `parse_citygml` guarantees), every
metadata key with positive `polygon_count` names exactly one mesh and exactly
one node in the binary scene JSON, and buildings with zero surviving polygons
contribute no mesh or node. -/
theorem metadata_mesh_name_integrity {α : Type} [DecidableEq α] :
    (∀ (geoms : GeometryMap α) (off : Q3) (gid : String) (e : MetaEntry),
      (gid, e) ∈ (objWriteMetadata geoms off).objects → 0 < e.polygon_count →
        gid ∈ groupNames (write_single_obj geoms)) ∧
    (∀ (bd : List (String × BuildingInfo α)) (off : Q3),
      (bd.map Prod.fst).Nodup →
      (∀ p ∈ bd, ∀ s ∈ p.2.surfaces, 3 ≤ s.points.length) →
      ∀ (bid ty : String) (cnt : Nat),
        (bid, ty, cnt) ∈ (glbWriteMetadata bd off).objects →
        (0 < cnt → (glbMeshNames bd).count bid = 1 ∧ (glbNodeNames bd).count bid = 1) ∧
        (cnt = 0 → (glbMeshNames bd).count bid = 0 ∧ (glbNodeNames bd).count bid = 0)) := by
  constructor
  · intro geoms off gid e hmem _
    rw [groupNames_write_single_obj]
    simp only [objWriteMetadata, List.mem_map] at hmem
    obtain ⟨p, hp, he⟩ := hmem
    have h1 : p.1 = gid := congrArg Prod.fst he
    exact h1 ▸ List.mem_map_of_mem Prod.fst hp
  · intro bd off hnd h3 bid ty cnt hmem
    simp only [glbWriteMetadata, List.mem_map] at hmem
    obtain ⟨p, hp, he⟩ := hmem
    have h1 : p.1 = bid := congrArg Prod.fst he
    have hcnt : p.2.surfaces.length = cnt := congrArg (fun x => x.2.2) he
    have hpmem : (bid, p.2) ∈ bd := by
      rw [← h1]
      exact hp
    have hcount := glbMeshNames_count_mem bd bid p.2 hnd hpmem
    constructor
    · intro hpos
      have hne : p.2.surfaces ≠ [] := by
        intro e0
        rw [e0] at hcnt
        simp at hcnt
        omega
      have hvf : buildingVertexFloats p.2 ≠ 0 :=
        buildingVertexFloats_pos p.2 hne (h3 p hp)
      have hkeep : meshKeep (bid, p.2) = some bid := by
        unfold meshKeep
        rw [if_neg (by simp [List.isEmpty_iff]; exact hne), if_neg hvf]
      have hm1 : (glbMeshNames bd).count bid = 1 := by
        rw [hcount, if_pos hkeep]
      exact ⟨hm1, hm1⟩
    · intro h0
      have hse : p.2.surfaces = [] := List.length_eq_zero.mp (by omega)
      have hkeep : meshKeep (bid, p.2) = none := by
        unfold meshKeep
        rw [if_pos (by simp [List.isEmpty_iff, hse])]
      have hm0 : (glbMeshNames bd).count bid = 0 := by
        rw [hcount, if_neg (by simp [hkeep])]
      exact ⟨hm0, hm0⟩

/-- Witness for C4: a building with one 3-point wall surface yields exactly
one mesh named after it, and a surface record in the OBJ pipeline with one
retained polygon yields a group named after it. -/
theorem metadata_mesh_name_integrity_witness :
    (glbMeshNames ([("B1", ⟨[⟨"WallSurface", [0, 1, 2]⟩]⟩)] :
        List (String × BuildingInfo Nat))).count "B1" = 1 ∧
    "W1" ∈ groupNames (write_single_obj
      ([("W1", ⟨"WallSurface", [[0, 1, 2]], []⟩)] : GeometryMap Nat)) := by
  have h := metadata_mesh_name_integrity (α := Nat)
  constructor
  · exact ((h.2 [("B1", ⟨[⟨"WallSurface", [0, 1, 2]⟩]⟩)] ((0 : ℚ), (0 : ℚ), (0 : ℚ))
      (by decide) (by decide) "B1" "Building" 1 (by decide)).1 (by decide)).1
  · exact h.1 [("W1", ⟨"WallSurface", [[0, 1, 2]], []⟩)] ((0 : ℚ), (0 : ℚ), (0 : ℚ))
      "W1" ⟨"WallSurface", 1, []⟩ (by decide) (by decide)

/-- C5 counterexample: in the module-parser pipeline (src/parser.py +
src/obj_writer.py), an object whose only loop has 2 points (fewer than 3
distinct points, so zero valid polygons) gets a metadata entry with
`polygon_count = 1` — counting the invalid loop, not only valid polygons —
and a named group IS written to the text mesh output; while an object whose
only loop extracts no coordinates is dropped from the geometry map entirely
and so receives no metadata entry at all. -/
theorem degenerate_polygon_metadata_cex :
    (objWriteMetadata (parseGeometries [("obj1", "WallSurface", [[0, 1]])])
        ((0 : ℚ), (0 : ℚ), (0 : ℚ))).objects
      = [("obj1", ⟨"WallSurface", 1, []⟩)] ∧
    (([[0, 1]] : List (List Nat)).filter (fun c => 3 ≤ distinctCount c)).length = 0 ∧
    "obj1" ∈ groupNames (write_single_obj
      (parseGeometries [("obj1", "WallSurface", [[(0 : Nat), 1]])])) ∧
    parseGeometries [("obj2", "WallSurface", ([[]] : List (List Nat)))] = [] := by
  refine ⟨by decide, by decide, by decide, by decide⟩

/-- C5 (amended): in the module-parser pipeline, a loop is dropped only when
it extracts no coordinates at all; an object is retained (in the geometry
map, hence the metadata index and as a named group in the text output) iff at
least one non-empty coordinate list remains, and its `polygon_count` counts
all retained loops including those with fewer than 3 points; loops with fewer
than 3 points merely contribute no records to their group.  In the
building-grouping pipeline, a building with zero surviving polygons is
retained in the metadata index with `polygon_count` 0 and contributes no mesh
to the binary output. -/
theorem degenerate_polygon_retention_amended {α : Type} [DecidableEq α] :
    (∀ (objs : List (String × String × List (List α))),
      (objs.map (fun o => o.1)).Nodup →
      ∀ o ∈ objs,
        (((o.2.2.filter (fun c => !c.isEmpty)).isEmpty →
            o.1 ∉ (parseGeometries objs).map Prod.fst) ∧
         (¬ (o.2.2.filter (fun c => !c.isEmpty)).isEmpty = true →
            (o.1, ({ element_type := o.2.1,
                     polygons := o.2.2.filter (fun c => !c.isEmpty),
                     metadata := [] } : GeoData α)) ∈ parseGeometries objs ∧
            o.1 ∈ groupNames (write_single_obj (parseGeometries objs))))) ∧
    (∀ (vc vo : Nat) (p : List α) (ps : List (List α)), p.length < 3 →
        groupBody vc vo (p :: ps) = groupBody vc vo ps) ∧
    (∀ (bd : List (String × BuildingInfo α)) (off : Q3) (bid : String)
        (b : BuildingInfo α),
      (bd.map Prod.fst).Nodup → (bid, b) ∈ bd → b.surfaces = [] →
        (bid, "Building", 0) ∈ (glbWriteMetadata bd off).objects ∧
        bid ∉ glbMeshNames bd) := by
  refine ⟨?_, ?_, ?_⟩
  · intro objs hnd o ho
    rw [parseGeometries_eq_filterMap objs hnd]
    constructor
    · intro hemp hcontra
      simp only [List.mem_map] at hcontra
      obtain ⟨x, hx, hx1⟩ := hcontra
      obtain ⟨o', ho', hpr⟩ := List.mem_filterMap.mp hx
      obtain ⟨he1, hne⟩ := parseRecord_some o' x hpr
      have : o' = o := nodup_keys_inj (fun o => o.1) objs hnd o' ho' o ho
        (by show o'.1 = o.1; rw [← he1, hx1])
      rw [this] at hne
      exact hne hemp
    · intro hne
      have hpr : parseRecord o = some (o.1,
          { element_type := o.2.1,
            polygons := o.2.2.filter (fun c => !c.isEmpty),
            metadata := [] }) := by
        simp only [parseRecord, if_neg hne]
      have hmem := List.mem_filterMap.mpr ⟨o, ho, hpr⟩
      refine ⟨hmem, ?_⟩
      rw [groupNames_write_single_obj]
      exact List.mem_map_of_mem Prod.fst hmem
  · intro vc vo p ps h
    simp only [groupBody, if_pos h]
  · intro bd off bid b hnd hm hs
    constructor
    · refine List.mem_map.mpr ⟨(bid, b), hm, ?_⟩
      simp [hs]
    · have hcount := glbMeshNames_count_mem bd bid b hnd hm
      have hkeep : meshKeep (bid, b) = none := by
        unfold meshKeep
        rw [if_pos (by simp [List.isEmpty_iff, hs])]
      have h0 : (glbMeshNames bd).count bid = 0 := by
        rw [hcount, if_neg (by simp [hkeep])]
      exact List.count_eq_zero.mp h0

/-- Witness for C5's amended theorem: a 2-point loop is retained into the
geometry map, and a surface-less building contributes no mesh. -/
theorem degenerate_polygon_retention_witness :
    ("o1", ({ element_type := "WallSurface", polygons := [[0, 1]],
              metadata := [] } : GeoData Nat)) ∈
        parseGeometries [("o1", "WallSurface", [[0, 1]])] ∧
    "b0" ∉ glbMeshNames ([("b0", ⟨[]⟩)] : List (String × BuildingInfo Nat)) := by
  have h := degenerate_polygon_retention_amended (α := Nat)
  constructor
  · exact ((h.1 [("o1", "WallSurface", [[0, 1]])] (by decide)
      ("o1", "WallSurface", [[0, 1]]) (by decide)).2 (by decide)).1
  · exact (h.2.2 [("b0", ⟨[]⟩)] ((0 : ℚ), (0 : ℚ), (0 : ℚ)) "b0" ⟨[]⟩
      (by decide) (by decide) rfl).2

end GmlView

namespace GmlView

theorem simpleObjectsFold_cons {α : Type} (s : SimpleSurface α)
    (rest : List (SimpleSurface α)) (acc : List (String × MetaEntry)) :
    simpleObjectsFold (s :: rest) acc =
      simpleObjectsFold rest (dictInsert s.sid
        { element_type := "Surface", polygon_count := 1,
          metadata := [("name", s.sid)] } acc) := rfl

theorem simpleObjectsFold_spec {α : Type} :
    ∀ (surfaces : List (SimpleSurface α)) (acc : List (String × MetaEntry)),
      (acc.map Prod.fst).Nodup →
      (((simpleObjectsFold surfaces acc).map Prod.fst).Nodup ∧
       (∀ sid, sid ∈ (simpleObjectsFold surfaces acc).map Prod.fst ↔
          sid ∈ acc.map Prod.fst ∨ sid ∈ surfaces.map (fun s => s.sid)) ∧
       ((∀ x ∈ acc, x.2.polygon_count = 1) →
          ∀ x ∈ simpleObjectsFold surfaces acc, x.2.polygon_count = 1))
  | [], acc, hnd => by
      refine ⟨hnd, ?_, ?_⟩
      · intro sid
        simp [simpleObjectsFold]
      · intro hv x hx
        exact hv x hx
  | s :: rest, acc, hnd => by
      set e : MetaEntry :=
        { element_type := "Surface", polygon_count := 1,
          metadata := [("name", s.sid)] } with he
      have hnd' : ((dictInsert s.sid e acc).map Prod.fst).Nodup :=
        dictInsert_nodup s.sid e acc hnd
      obtain ⟨ih1, ih2, ih3⟩ := simpleObjectsFold_spec rest (dictInsert s.sid e acc) hnd'
      rw [simpleObjectsFold_cons]
      refine ⟨ih1, ?_, ?_⟩
      · intro sid
        rw [ih2 sid, dictInsert_mem_keys, List.map_cons, List.mem_cons]
        constructor
        · intro h
          rcases h with (h | h) | h
          · exact Or.inr (Or.inl h)
          · exact Or.inl h
          · exact Or.inr (Or.inr h)
        · intro h
          rcases h with h | h | h
          · exact Or.inl (Or.inr h)
          · exact Or.inl (Or.inl h)
          · exact Or.inr h
      · intro hv
        refine ih3 ?_
        exact dictInsert_values (fun b => b.polygon_count = 1) s.sid e rfl acc hv

/-- C8 counterexample: for two surface records sharing the identifier `s1`
(one surface element with two polygons), `write_metadata` of
simple_gml2obj.py reports `total_objects = 2` while the `objects` mapping
holds a single entry — so `total_objects` is the number of surface records,
not of retained object identifiers — and that entry's `polygon_count` is 1
although the identifier has 2 retained polygon loops. -/
theorem write_metadata_total_objects_cex :
    (simpleWriteMetadata ([⟨"s1", "WallSurface", [0, 1, 2]⟩,
        ⟨"s1", "WallSurface", [3, 4, 5]⟩] : List (SimpleSurface Nat))
      ((0 : ℚ), (0 : ℚ), (0 : ℚ))).total_objects = 2 ∧
    (simpleWriteMetadata ([⟨"s1", "WallSurface", [0, 1, 2]⟩,
        ⟨"s1", "WallSurface", [3, 4, 5]⟩] : List (SimpleSurface Nat))
      ((0 : ℚ), (0 : ℚ), (0 : ℚ))).objects
      = [("s1", ⟨"Surface", 1, [("name", "s1")]⟩)] ∧
    (([⟨"s1", "WallSurface", [0, 1, 2]⟩, ⟨"s1", "WallSurface", [3, 4, 5]⟩] :
        List (SimpleSurface Nat)).map (fun s => s.sid)).dedup.length = 1 := by
  refine ⟨rfl, rfl, by decide⟩

/-- C8 (amended): the module writer (`OBJWriter._write_metadata`) and the
building-grouping writer (gml2glb.py) behave as the claim states: offset
verbatim, one entry per retained identifier with the record's element type,
`polygon_count` equal to the number of retained loops and (module writer) the
record's metadata mapping, `total_objects` equal to the number of retained
identifiers.  The per-surface writer (simple_gml2obj.py) instead sets
`total_objects` to the number of surface records (duplicated identifiers
counted once per record), keys its deduplicated `objects` by surface id, and
fixes every `polygon_count` at 1. -/
theorem write_metadata_spec_amended {α : Type} :
    (∀ (geoms : GeometryMap α) (off : Q3),
      (objWriteMetadata geoms off).offset = off ∧
      (objWriteMetadata geoms off).total_objects = geoms.length ∧
      ((objWriteMetadata geoms off).objects).map Prod.fst = geoms.map Prod.fst ∧
      ((geoms.map Prod.fst).Nodup →
        (((objWriteMetadata geoms off).objects).map Prod.fst).Nodup) ∧
      List.Forall₂ (fun (g : String × GeoData α) (o : String × MetaEntry) =>
        o.1 = g.1 ∧ o.2.element_type = g.2.element_type ∧
        o.2.polygon_count = g.2.polygons.length ∧ o.2.metadata = g.2.metadata)
        geoms (objWriteMetadata geoms off).objects) ∧
    (∀ (bd : List (String × BuildingInfo α)) (off : Q3),
      (glbWriteMetadata bd off).offset = off ∧
      (glbWriteMetadata bd off).total_objects = bd.length ∧
      List.Forall₂ (fun (b : String × BuildingInfo α) (o : String × String × Nat) =>
        o.1 = b.1 ∧ o.2.1 = "Building" ∧ o.2.2 = b.2.surfaces.length)
        bd (glbWriteMetadata bd off).objects) ∧
    (∀ (surfaces : List (SimpleSurface α)) (off : Q3),
      (simpleWriteMetadata surfaces off).offset = off ∧
      (simpleWriteMetadata surfaces off).total_objects = surfaces.length ∧
      (((simpleWriteMetadata surfaces off).objects).map Prod.fst).Nodup ∧
      (∀ sid, sid ∈ ((simpleWriteMetadata surfaces off).objects).map Prod.fst ↔
        sid ∈ surfaces.map (fun s => s.sid)) ∧
      (∀ x ∈ (simpleWriteMetadata surfaces off).objects, x.2.polygon_count = 1)) := by
  refine ⟨?_, ?_, ?_⟩
  · intro geoms off
    refine ⟨rfl, rfl, ?_, ?_, ?_⟩
    · simp [objWriteMetadata, List.map_map]
    · intro h
      have he : ((objWriteMetadata geoms off).objects).map Prod.fst
          = geoms.map Prod.fst := by
        simp [objWriteMetadata, List.map_map]
      rw [he]
      exact h
    · apply forall2_map_right
      intro p _
      exact ⟨rfl, rfl, rfl, rfl⟩
  · intro bd off
    refine ⟨rfl, rfl, ?_⟩
    apply forall2_map_right
    intro p _
    exact ⟨rfl, rfl, rfl⟩
  · intro surfaces off
    obtain ⟨h1, h2, h3⟩ := simpleObjectsFold_spec surfaces [] (by simp)
    refine ⟨rfl, rfl, h1, ?_, h3 (by intro x hx; exact absurd hx (List.not_mem_nil x))⟩
    intro sid
    rw [show (simpleWriteMetadata surfaces off).objects
        = simpleObjectsFold surfaces [] from rfl, h2 sid]
    simp

/-- Witness for C8's amended theorem at one-element inputs: offset recorded
verbatim, entry counts as stated, and the simple writer's single entry has
`polygon_count` 1. -/
theorem write_metadata_spec_witness :
    (objWriteMetadata ([("a", ⟨"Building", [[0]], []⟩)] : GeometryMap Nat)
      ((1 : ℚ), (2 : ℚ), (3 : ℚ))).offset = ((1 : ℚ), (2 : ℚ), (3 : ℚ)) ∧
    (glbWriteMetadata ([("b", ⟨[]⟩)] : List (String × BuildingInfo Nat))
      ((0 : ℚ), (0 : ℚ), (0 : ℚ))).total_objects = 1 ∧
    (("s", (⟨"Surface", 1, [("name", "s")]⟩ : MetaEntry)).2.polygon_count = 1) := by
  have h := write_metadata_spec_amended (α := Nat)
  refine ⟨(h.1 [("a", ⟨"Building", [[0]], []⟩)] ((1 : ℚ), (2 : ℚ), (3 : ℚ))).1,
    (h.2.1 [("b", ⟨[]⟩)] ((0 : ℚ), (0 : ℚ), (0 : ℚ))).2.1, ?_⟩
  exact (h.2.2 [⟨"s", "WallSurface", [0, 1, 2]⟩] ((0 : ℚ), (0 : ℚ), (0 : ℚ))).2.2.2.2
    ("s", ⟨"Surface", 1, [("name", "s")]⟩) (by decide)

end GmlView
